import Mathlib

/-!
Verification development for the Rosetta edge worker (`src/worker/index.js`).

The worker is a single JavaScript file; the definitions below are a shallow
embedding of its pure helpers (`isAIBot`, `isHTML`, `canonicalize`, `sha256`,
`isPrivateHost`, `scrapeWithTimeout`, `fetchFallback`, ...) and of the
request-handling control flow of `_handleRenderLogic` (API mode) and
`handleProxyMode` (proxy mode, bot path), with all asynchronous collaborators
(the key-value store, the extraction backend, origin fetches) supplied as
explicit oracle inputs.  A small interleaving machine models the single-flight
coordination of concurrent cache-miss requests.

Modelling conventions, stated once:
* JavaScript strings are Lean `String`s / `List Char`; `toLowerCase` is
  modelled on the ASCII range (the only range exercised by hostnames, scheme
  names and the bot identifier lists), and JS string comparison by UTF-16 code
  units coincides with `Char` code-point comparison on the BMP inputs modelled
  here.
* The WHATWG `URL` parser is modelled at the component level on the
  sublanguage `scheme://host/path?query#fragment` actually exercised by the
  worker: no userinfo/port (a host containing `:` or `@` is rejected),
  no percent-encoding normalisation and no dot-segment removal (such strings
  are carried verbatim).  Fields mirror the `URL` object properties the
  worker touches.
* A JavaScript function that can throw is modelled with `Option`/`Except`;
  a `catch` block corresponds to consuming that constructor.
* KV reads that the worker wraps in `try/catch` are oracles of type
  `KVOutcome`; `KVOutcome.err` is a thrown read, which the worker's `catch`
  converts to a `null` result.
-/

/-- ASCII lowercasing of one character, as JS `String.prototype.toLowerCase`
acts on the ASCII range (code points 65..90 map to 97..122, everything else
in this development is untouched). -/
def lowerChar (c : Char) : Char :=
  if 65 ≤ c.toNat ∧ c.toNat ≤ 90 then Char.ofNat (c.toNat + 32) else c

/-- ASCII lowercasing of a character list. -/
def lowerAscii (l : List Char) : List Char := l.map lowerChar

/-- ASCII lowercasing of a string (models `s.toLowerCase()`). -/
def lowerStr (s : String) : String := String.mk (lowerAscii s.data)

/-- Substring test: does `s` contain `sub` as a contiguous run?  Models JS
`s.includes(sub)` (note `x.includes("")` is `true`). -/
def containsSub : List Char → List Char → Bool
  | [], sub => sub.isEmpty
  | s@(_ :: t), sub => sub.isPrefixOf s || containsSub t sub

/-- String-level wrapper for `containsSub`. -/
def strContains (s sub : String) : Bool := containsSub s.data sub.data

/-- Suffix test on strings (models JS `s.endsWith(suf)`). -/
def strEndsWith (s suf : String) : Bool := suf.data.reverse.isPrefixOf s.data.reverse

/-- The default AI-crawler identity list `AI_BOTS` (worker lines 87-127),
transcribed verbatim. -/
def AI_BOTS : List String :=
  ["gptbot", "chatgpt-user", "oai-searchbot", "claudebot", "claude-web",
   "google-extended", "googleother", "bingpreview", "perplexitybot",
   "amazonbot", "applebot-extended", "meta-externalagent", "cohere-ai",
   "bytespider", "ccbot", "diffbot"]

/-- The tracking-parameter denylist `TRACKING_PARAMS` (worker lines 148-151). -/
def TRACKING_PARAMS : List String :=
  ["utm_source", "utm_medium", "utm_campaign", "utm_term", "utm_content",
   "fbclid", "gclid", "ref", "mc_cid", "mc_eid", "_ga", "_gl"]

/-- Canonicalization version tag (worker line 37). -/
def CANON_VERSION : String := "v1"

/-- Per-tenant bot overrides (`bot_overrides` in the customer config). -/
structure BotOverrides where
  «include» : List String := []
  exclude : List String := []
deriving DecidableEq

/-- Tenant record as stored in KV (`apikey:{token}` / `apikeyhash:{hash}`):
the fields the worker reads. -/
structure CustomerConfig where
  id : Option String := none
  customerId : Option String := none
  domains : Option (List String) := none
  bot_overrides : Option BotOverrides := none
deriving DecidableEq

/-- The `customerConfig?.bot_overrides?.exclude || []` access path. -/
def excludesOf (cfg : Option CustomerConfig) : List String :=
  match cfg with
  | some c =>
    match c.bot_overrides with
    | some o => o.exclude
    | none => []
  | none => []

/-- The `customerConfig?.bot_overrides?.include || []` access path. -/
def includesOf (cfg : Option CustomerConfig) : List String :=
  match cfg with
  | some c =>
    match c.bot_overrides with
    | some o => o.«include»
    | none => []
  | none => []

/-- Bot classifier `isAIBot(ua, customerConfig)` (worker lines 160-175).
`ua = none` models a missing header and `ua = some ""` the empty header;
both are falsy in JS, so both return `false` before any list is consulted.
Tenant `exclude` substrings veto first; otherwise the default list unioned
with tenant `include` substrings decides. -/
def isAIBot (ua : Option String) (customerConfig : Option CustomerConfig) : Bool :=
  match ua with
  | none => false
  | some u =>
    if u = "" then false
    else
      let lower := lowerStr u
      if (excludesOf customerConfig).any (fun bot => strContains lower (lowerStr bot)) then
        false
      else
        (AI_BOTS ++ includesOf customerConfig).any (fun bot => strContains lower (lowerStr bot))

/-- ASCII whitespace predicate used to model JS `String.prototype.trim`
(the JS set also has exotic Unicode spaces; the worker only meets ASCII). -/
def isWsChar (c : Char) : Bool := c = ' ' || c = '\t' || c = '\n' || c = '\r'

/-- Trim both ends (models `s.trim()` on ASCII whitespace). -/
def trimChars (l : List Char) : List Char :=
  ((l.dropWhile isWsChar).reverse.dropWhile isWsChar).reverse

/-- Remove a single leading BOM (models `content.replace of a leading U+FEFF`). -/
def stripBOM (l : List Char) : List Char :=
  match l with
  | c :: t => if c = '\uFEFF' then t else l
  | [] => []

/-- `isHTML(content)` (worker lines 1228-1236): BOM-strip, trim, lowercase,
then sniff for a doctype / html / XML prolog / comment-then-html shape. -/
def isHTML (content : String) : Bool :=
  if content = "" then false
  else
    let t := lowerAscii (trimChars (stripBOM content.data))
    "<!doctype".data.isPrefixOf t || "<html".data.isPrefixOf t ||
      "<?xml".data.isPrefixOf t ||
      ("<!--".data.isPrefixOf t && containsSub t "<html".data)

/-- Token estimate `estimateTokens` (worker lines 1245-1248): `ceil(len/4)`. -/
def estimateTokens (text : String) : Nat := (text.length + 3) / 4

/-- A parsed URL at the component level: the `URL`-object fields that the
worker reads or writes (`protocol` without the trailing colon, `hostname`,
`pathname`, the search-parameter pair list, and the fragment, where `none`
models a null fragment, which serializes without `#`). -/
structure URLModel where
  scheme : List Char
  host : List Char
  path : List Char
  params : List (List Char × List Char)
  frag : Option (List Char)
deriving DecidableEq

/-- Split a query string on `&` (the application/x-www-form-urlencoded
parser's first phase).  Always returns a non-empty chunk list. -/
def splitAmp : List Char → List (List Char)
  | [] => [[]]
  | c :: t =>
    if c = '&' then [] :: splitAmp t
    else
      match splitAmp t with
      | h :: r => (c :: h) :: r
      | [] => [[c]]

/-- Split one `name=value` chunk at the first `=` (a chunk without `=` gets
the empty value, as in the urlencoded parser). -/
def parsePair (chunk : List Char) : List Char × List Char :=
  (chunk.takeWhile (fun c => c ≠ '='),
   match chunk.dropWhile (fun c => c ≠ '=') with
   | _ :: t => t
   | [] => [])

/-- Parse a query string into name-value pairs; empty chunks (`&&`, lone
`?`) are skipped, as the urlencoded parser does. -/
def parseQuery (q : List Char) : List (List Char × List Char) :=
  ((splitAmp q).filter (fun c => !c.isEmpty)).map parsePair

/-- Ordering used by `URLSearchParams.sort()`: compare pairs by name only,
lexicographically by code point (code-unit order in JS; identical on the BMP
inputs modelled here). -/
def paramRel (p q : List Char × List Char) : Prop := p.1 ≤ q.1

instance : DecidableRel paramRel := fun p q => inferInstanceAs (Decidable (p.1 ≤ q.1))

instance : IsTotal (List Char × List Char) paramRel := ⟨fun a b => le_total a.1 b.1⟩

instance : IsTrans (List Char × List Char) paramRel := ⟨fun _ _ _ h1 h2 => le_trans h1 h2⟩

/-- Stable sort of the parameter pairs by name (models
`parsed.searchParams.sort()`; insertion sort is stable, like the mandated
WHATWG sort). -/
def sortParams (ps : List (List Char × List Char)) : List (List Char × List Char) :=
  List.insertionSort paramRel ps

/-- Drop every pair whose name is in the tracking denylist (models the
`parsed.searchParams.delete(param)` loop over `TRACKING_PARAMS`; deletion is
by exact, case-sensitive name). -/
def stripTracking (ps : List (List Char × List Char)) : List (List Char × List Char) :=
  ps.filter (fun p => !(TRACKING_PARAMS.map String.data).contains p.1)

/-- ASCII letter predicate (scheme validation in the modelled sublanguage). -/
def isAlphaChar (c : Char) : Bool :=
  (65 ≤ c.toNat && c.toNat ≤ 90) || (97 ≤ c.toNat && c.toNat ≤ 122)

/-- Split off the fragment at the first `#` (`none` when there is no `#`,
matching a null fragment). -/
def splitHash (l : List Char) : List Char × Option (List Char) :=
  (l.takeWhile (fun c => c ≠ '#'),
   match l.dropWhile (fun c => c ≠ '#') with
   | _ :: f => some f
   | [] => none)

/-- Split off the query at the first `?` (`none` when there is no `?`). -/
def splitQuery (l : List Char) : List Char × Option (List Char) :=
  (l.takeWhile (fun c => c ≠ '?'),
   match l.dropWhile (fun c => c ≠ '?') with
   | _ :: q => some q
   | [] => none)

/-- Parameter list of an optional query string. -/
def queryParams (query : Option (List Char)) : List (List Char × List Char) :=
  match query with
  | none => []
  | some q => parseQuery q

/-- Component-level URL parser for the modelled sublanguage
`scheme://host[/path][?query][#fragment]`.  The scheme is lowercased (as the
WHATWG parser does), the fragment starts at the first `#`, the query sits
between the first `?` and the fragment, and the host runs to the first `/`;
hosts with userinfo or ports (`@`, `:`) are outside the sublanguage.  An
absent path is normalised to `/` (as `new URL` reports `pathname`). -/
def parseURL (l : List Char) : Option URLModel :=
  let rawScheme := l.takeWhile (fun c => c ≠ ':')
  match l.dropWhile (fun c => c ≠ ':') with
  | ':' :: '/' :: '/' :: rest =>
    if rawScheme.isEmpty || !rawScheme.all isAlphaChar then none
    else
      let body := (splitHash rest).1
      let beforeq := (splitQuery body).1
      let host := beforeq.takeWhile (fun c => c ≠ '/')
      let pathRest := beforeq.dropWhile (fun c => c ≠ '/')
      if host.isEmpty || host.any (fun c => c = ':' || c = '@') then none
      else
        some { scheme := lowerAscii rawScheme
               host := host
               path := if pathRest.isEmpty then ['/'] else pathRest
               params := queryParams (splitQuery body).2
               frag := (splitHash rest).2 }
  | _ => none

/-- Join chunks with `&`. -/
def joinAmp : List (List Char) → List Char
  | [] => []
  | [c] => c
  | c :: cs => c ++ '&' :: joinAmp cs

/-- Serialize parameter pairs (urlencoded serializer: `name=value` joined by
`&`; a pair always serializes with its `=`). -/
def serializeQuery (ps : List (List Char × List Char)) : List Char :=
  joinAmp (ps.map (fun p => p.1 ++ '=' :: p.2))

/-- Serializer matching `URL.prototype.toString` on the modelled
sublanguage: an empty parameter list yields no `?` (after a mutation through
`searchParams`, an empty list nulls the query, which is the state
`canonicalize` leaves the object in), and a `none` fragment yields no `#`. -/
def serializeURL (u : URLModel) : List Char :=
  u.scheme ++ (':' :: '/' :: '/' :: []) ++ u.host ++ u.path ++
    (if u.params.isEmpty then [] else '?' :: serializeQuery u.params) ++
    (match u.frag with
     | none => []
     | some f => '#' :: f)

/-- The canonicalization core of `canonicalize` (worker lines 1195-1212) on
a parsed URL: clear the fragment, lowercase the hostname (`www.` is
deliberately NOT stripped), delete tracking parameters, stable-sort the
rest by name. -/
def canonURL (u : URLModel) : URLModel :=
  { scheme := u.scheme
    host := lowerAscii u.host
    path := u.path
    params := sortParams (stripTracking u.params)
    frag := none }

/-- `canonicalize(urlString)` (worker lines 1195-1212): parse, normalise,
and serialize back to a string.  `none` models the `new URL` throw on an
unparseable input. -/
def canonicalize (urlString : String) : Option String :=
  (parseURL urlString.data).map (fun u => String.mk (serializeURL (canonURL u)))

/-- UTF-8 encoding of one scalar value (what `TextEncoder` emits). -/
def utf8Char (c : Char) : List Nat :=
  let n := c.toNat
  if n < 128 then [n]
  else if n < 2048 then [192 + n / 64, 128 + n % 64]
  else if n < 65536 then [224 + n / 4096, 128 + (n / 64) % 64, 128 + n % 64]
  else [240 + n / 262144, 128 + (n / 4096) % 64, 128 + (n / 64) % 64, 128 + n % 64]

/-- UTF-8 encoding of a string as a byte list (models `new TextEncoder().encode(str)`). -/
def utf8Bytes (s : String) : List Nat :=
  s.data.foldr (fun c acc => utf8Char c ++ acc) []

/-- 2^32, the word modulus of SHA-256. -/
def m32 : Nat := 4294967296

/-- Right rotation of a 32-bit word. -/
def rotr (n x : Nat) : Nat := ((x >>> n) ||| (x <<< (32 - n))) % m32

/-- Bitwise complement on 32-bit words. -/
def bnot32 (x : Nat) : Nat := (x % m32) ^^^ 4294967295

/-- SHA-256 Σ₀. -/
def bigSigma0 (x : Nat) : Nat := rotr 2 x ^^^ rotr 13 x ^^^ rotr 22 x

/-- SHA-256 Σ₁. -/
def bigSigma1 (x : Nat) : Nat := rotr 6 x ^^^ rotr 11 x ^^^ rotr 25 x

/-- SHA-256 σ₀. -/
def smallSigma0 (x : Nat) : Nat := rotr 7 x ^^^ rotr 18 x ^^^ (x >>> 3)

/-- SHA-256 σ₁. -/
def smallSigma1 (x : Nat) : Nat := rotr 17 x ^^^ rotr 19 x ^^^ (x >>> 10)

/-- The SHA-256 round constants. -/
def sha256K : List Nat :=
  [1116352408, 1899447441, 3049323471, 3921009573, 961987163, 1508970993, 2453635748, 2870763221,
   3624381080, 310598401, 607225278, 1426881987, 1925078388, 2162078206, 2614888103, 3248222580,
   3835390401, 4022224774, 264347078, 604807628, 770255983, 1249150122, 1555081692, 1996064986,
   2554220882, 2821834349, 2952996808, 3210313671, 3336571891, 3584528711, 113926993, 338241895,
   666307205, 773529912, 1294757372, 1396182291, 1695183700, 1986661051, 2177026350, 2456956037,
   2730485921, 2820302411, 3259730800, 3345764771, 3516065817, 3600352804, 4094571909, 275423344,
   430227734, 506948616, 659060556, 883997877, 958139571, 1322822218, 1537002063, 1747873779,
   1955562222, 2024104815, 2227730452, 2361852424, 2428436474, 2756734187, 3204031479, 3329325298]

/-- The SHA-256 initial hash value. -/
def sha256H0 : List Nat :=
  [1779033703, 3144134277, 1013904242, 2773480762, 1359893119, 2600822924, 528734635, 1541459225]

/-- Big-endian 8-byte encoding of the bit length. -/
def bigEndian8 (n : Nat) : List Nat :=
  [(n >>> 56) % 256, (n >>> 48) % 256, (n >>> 40) % 256, (n >>> 32) % 256,
   (n >>> 24) % 256, (n >>> 16) % 256, (n >>> 8) % 256, n % 256]

/-- SHA-256 padding: append `0x80`, zero-fill to 56 mod 64, then the
64-bit big-endian message bit length. -/
def padMessage (msg : List Nat) : List Nat :=
  let L := msg.length
  let z := (119 - L % 64) % 64
  msg ++ [128] ++ List.replicate z 0 ++ bigEndian8 (L * 8)

/-- Chop a byte list into 64-byte blocks (fuel-driven structural recursion;
the fuel is the list length, which bounds the block count). -/
def chunk64Fuel : Nat → List Nat → List (List Nat)
  | 0, _ => []
  | _, [] => []
  | n + 1, l => l.take 64 :: chunk64Fuel n (l.drop 64)

/-- Chop a byte list into 64-byte blocks. -/
def chunk64 (l : List Nat) : List (List Nat) := chunk64Fuel l.length l

/-- Big-endian 4-byte grouping into 32-bit words. -/
def toWords : List Nat → List Nat
  | b1 :: b2 :: b3 :: b4 :: t => (((b1 * 256 + b2) * 256 + b3) * 256 + b4) :: toWords t
  | _ => []

/-- Message-schedule extension: append `n` further words to `w`. -/
def extendW (w : List Nat) : Nat → List Nat
  | 0 => w
  | n + 1 =>
    let t := w.length
    let wt := (smallSigma1 (w.getD (t - 2) 0) + w.getD (t - 7) 0 +
               smallSigma0 (w.getD (t - 15) 0) + w.getD (t - 16) 0) % m32
    extendW (w ++ [wt]) n

/-- One SHA-256 compression round on the eight-register state; `kw` carries
the schedule word and round constant. -/
def compressStep (st : List Nat) (kw : Nat × Nat) : List Nat :=
  match st with
  | [a, b, c, d, e, f, g, h] =>
    let t1 := (h + bigSigma1 e + ((e &&& f) ^^^ (bnot32 e &&& g)) + kw.2 + kw.1) % m32
    let t2 := (bigSigma0 a + ((a &&& b) ^^^ (a &&& c) ^^^ (b &&& c))) % m32
    [(t1 + t2) % m32, a, b, c, (d + t1) % m32, e, f, g]
  | other => other

/-- Process one 64-byte block. -/
def processBlock (h : List Nat) (block : List Nat) : List Nat :=
  let w := extendW (toWords block) 48
  let st := (w.zip sha256K).foldl compressStep h
  (h.zip st).map (fun p => (p.1 + p.2) % m32)

/-- SHA-256 digest of a byte list, as 32 bytes. -/
def sha256Bytes (msg : List Nat) : List Nat :=
  let hs := (chunk64 (padMessage msg)).foldl processBlock sha256H0
  hs.foldr (fun w acc => [(w >>> 24) % 256, (w >>> 16) % 256, (w >>> 8) % 256, w % 256] ++ acc) []

/-- Lowercase hex digit. -/
def hexDigit (n : Nat) : Char := "0123456789abcdef".data.getD n '0'

/-- Two-digit lowercase hex of a byte (the `toString(16).padStart(2, '0')`
rendering in the worker's `sha256`). -/
def byteHex (b : Nat) : List Char := [hexDigit (b / 16), hexDigit (b % 16)]

/-- `sha256(str)` (worker lines 1217-1222): UTF-8 encode, digest, render as
lowercase hex. -/
def sha256 (str : String) : String :=
  String.mk ((sha256Bytes (utf8Bytes str)).foldr (fun b acc => byteHex b ++ acc) [])

/-- The fingerprint of a URL string: the digest of the canonicalization
version tag joined to the canonical URL, exactly the inline expression
`sha256(CANON_VERSION + ":" + canonical)` at the worker's cache-key sites. -/
def fingerprint (urlString : String) : Option String :=
  (canonicalize urlString).map (fun c => sha256 (CANON_VERSION ++ ":" ++ c))

/-- Outcome of one key-value store operation as the worker observes it:
`ok v` is a resolved read (with `v = none` for an absent key) and `err` a
thrown one (store unavailable). -/
inductive KVOutcome (α : Type) where
  | ok (v : α)
  | err
deriving DecidableEq

/-- The value a `try { x = await get(...) } catch { ... }` block leaves in
`x`: a thrown read leaves the initialised `null`. -/
def cachedValue (r : KVOutcome (Option String)) : Option String :=
  match r with
  | .ok v => v
  | .err => none

/-- Result of credential resolution in `_handleRenderLogic` lines 607-627. -/
inductive AuthOutcome where
  | unavailable
  | invalid
  | resolved (c : CustomerConfig)
deriving DecidableEq

/-- Dual-lookup credential resolution (worker lines 613-627): consult the
hashed-credential key `apikeyhash:sha256(token)` first; only when that read
resolves to `null` consult the legacy key `apikey:token`; a throw from
either read is the 503 `unavailable` outcome, and `null` from both is
`invalid`.  `store` is the KV collaborator for `'json'`-typed reads. -/
def authLookup (token : String) (store : String → KVOutcome (Option CustomerConfig)) :
    AuthOutcome :=
  match store ("apikeyhash:" ++ sha256 token) with
  | .err => .unavailable
  | .ok (some c) => .resolved c
  | .ok none =>
    match store ("apikey:" ++ token) with
    | .err => .unavailable
    | .ok (some c) => .resolved c
    | .ok none => .invalid

/-- `customer.id || customer.customerId` followed by the falsy check
(worker lines 630-632): `none` means the 500 `Invalid customer config
format` branch fires. -/
def customerIdOf (c : CustomerConfig) : Option String :=
  let raw :=
    match c.id with
    | some i => if i = "" then c.customerId else some i
    | none => c.customerId
  match raw with
  | some s => if s = "" then none else some s
  | none => none

/-- `!customer.domains || !customer.domains.includes(hostname)` negated
(worker line 655): a missing `domains` field always fails, and membership is
exact string membership. -/
def domainAllowed (c : CustomerConfig) (hostname : String) : Bool :=
  match c.domains with
  | none => false
  | some ds => ds.contains hostname

/-- `hostname.replace(/^www\./, '')`. -/
def stripWWW (l : List Char) : List Char :=
  if "www.".data.isPrefixOf l then l.drop 4 else l

/-- The `^172.(1[6-9]|2[0-9]|3[0-1]).` private-range pattern. -/
def is172Private : List Char → Bool
  | '1' :: '7' :: '2' :: '.' :: d1 :: d2 :: '.' :: _ =>
    (d1 = '1' && ('6' ≤ d2 && d2 ≤ '9')) ||
      (d1 = '2' && d2.isDigit) ||
      (d1 = '3' && (d2 = '0' || d2 = '1'))
  | _ => false

/-- The `PRIVATE_IP_PATTERNS` tests (worker lines 40-50), applied to the
hostname as written (`/i` only on the IPv6 prefixes, matching the source). -/
def privateIpMatch (l : List Char) : Bool :=
  "127.".data.isPrefixOf l || "10.".data.isPrefixOf l || is172Private l ||
    "192.168.".data.isPrefixOf l || "169.254.".data.isPrefixOf l ||
    "0.".data.isPrefixOf l || l = "::1".data ||
    "fc00:".data.isPrefixOf (lowerAscii l) || "fe80:".data.isPrefixOf (lowerAscii l)

/-- `isPrivateHost(hostname)` (worker lines 185-195). -/
def isPrivateHost (hostname : String) : Bool :=
  let lower := lowerStr hostname
  if lower = "localhost" || strEndsWith lower ".local" || strEndsWith lower ".internal" then
    true
  else privateIpMatch hostname.data

/-- Response bodies, at the granularity the claims need: an error-JSON
object body (the `jsonResponse({error: msg})` shape) or literal text. -/
inductive RespBody where
  | jsonError (msg : String)
  | text (s : String)
deriving DecidableEq

/-- An HTTP response: status, header list, body. -/
structure HttpResponse where
  status : Nat
  headers : List (String × String)
  body : RespBody
deriving DecidableEq

/-- `jsonResponse(data, status)` (worker lines 1520-1528) at its error-object
call sites. -/
def jsonResponse (msg : String) (status : Nat) : HttpResponse :=
  { status := status
    headers := [("Content-Type", "application/json"), ("Access-Control-Allow-Origin", "*")]
    body := RespBody.jsonError msg }

/-- Header lookup (first match). -/
def getHeader (hs : List (String × String)) (k : String) : Option String :=
  (hs.find? (fun p => p.1 = k)).map (fun p => p.2)

/-- `headers.set(k, v)`: drop previous values of the key, add the new one. -/
def setHeader (hs : List (String × String)) (k v : String) : List (String × String) :=
  hs.filter (fun p => p.1 ≠ k) ++ [(k, v)]

/-- Markdown-response headers in API mode (worker lines 680-686 / 758-764),
parameterised by the `X-Rosetta-Status` indicator value. -/
def mdHeadersAPI (st : String) : List (String × String) :=
  [("Content-Type", "text/markdown; charset=utf-8"), ("X-Rosetta-Status", st),
   ("Cache-Control", "public, max-age=3600")]

/-- A 200 markdown response in API mode. -/
def mdResponseAPI (md : String) (st : String) : HttpResponse :=
  { status := 200, headers := mdHeadersAPI st, body := RespBody.text md }

/-- `fetchFallback(url, originalRequest)` (worker lines 1383-1417), with the
origin interaction abstracted to its outcome: `some (st, html)` when the
fetch and body read succeed with upstream status `st`, `none` when either
throws.  Every branch returns status 200 and reports the truth in the
`X-Rosetta-Status` / `X-Rosetta-Origin-Status` headers. -/
def fetchFallback (origin : Option (Nat × String)) : HttpResponse :=
  match origin with
  | some (st, html) =>
    { status := 200
      headers := [("Content-Type", "text/html; charset=utf-8"),
                  ("X-Rosetta-Status", "fallback"),
                  ("X-Rosetta-Origin-Status", toString st)]
      body := RespBody.text html }
  | none =>
    { status := 200
      headers := [("Content-Type", "text/html; charset=utf-8"),
                  ("X-Rosetta-Status", "error"),
                  ("X-Rosetta-Origin-Status", "unavailable")]
      body := RespBody.text "<!-- Rosetta: Origin unavailable -->" }

/-- Extraction result shape returned by `scrapeWithTimeout` on success. -/
structure ScrapeData where
  markdown : String
  html : Option String
deriving DecidableEq

/-- The `data` object of a Firecrawl response body. -/
structure FirecrawlData where
  markdown : Option String
deriving DecidableEq

/-- A parsed Firecrawl response body. -/
structure FirecrawlJson where
  success : Bool
  data : Option FirecrawlData
deriving DecidableEq

/-- How the Firecrawl fetch inside `scrapeWithTimeout` resolves:
`aborted` is the AbortError raised when the timeout fires (the in-flight
call is actively cancelled), `transportError` any other rejection, and
`response ok json` an HTTP response with `ok = status in 200-299` and
`json` the parsed body (`none` when `.json()` throws on a malformed body). -/
inductive FirecrawlOutcome where
  | aborted
  | transportError
  | response (ok : Bool) (json : Option FirecrawlJson)
deriving DecidableEq

/-- The raw HTML the gateway keeps from the parallel origin fetch (worker
lines 1342-1357): only a resolved, 2xx response whose body read succeeded
contributes; everything else leaves `rawHtml` null. -/
def rawHtmlOf (raw : Option (Bool × Option String)) : Option String :=
  match raw with
  | some (true, some txt) => some txt
  | _ => none

/-- `scrapeWithTimeout(targetUrl, apiKey, timeoutMs)` (worker lines
1291-1374) over outcome oracles.  `raw` is the parallel raw-HTML origin
fetch: `none` when that fetch rejected (its `.catch` turns this into a null
response), otherwise `some (ok, text)` with `text = none` when reading the
body threw.  Every failure mode of the extraction call collapses to `none`;
a markdown payload that is structurally HTML is also a failure. -/
def scrapeWithTimeout (fc : FirecrawlOutcome) (raw : Option (Bool × Option String)) :
    Option ScrapeData :=
  match fc with
  | .aborted => none
  | .transportError => none
  | .response ok json =>
    if !ok then none
    else
      match json with
      | none => none
      | some j =>
        if !j.success then none
        else
          match j.data with
          | none => none
          | some d =>
            match d.markdown with
            | none => none
            | some md =>
              if md = "" then none
              else
                if isHTML md then none
                else some { markdown := md, html := rawHtmlOf raw }

/-- Number of wait-loop iterations (`for (let i = 0; i < 6; i++)`). -/
def POLL_COUNT : Nat := 6

/-- Wait-loop sleep per iteration (`await sleep(500)`). -/
def POLL_SLEEP_MS : Nat := 500

/-- `EXTRACT_TIMEOUT_MS` (worker line 30). -/
def EXTRACT_TIMEOUT_MS : Nat := 3000

/-- The bounded wait loop (worker lines 700-717 / 863-880): starting at poll
index `i` with `n` polls left, read the cache; a non-empty, non-HTML value
ends the loop as a hit (reporting how many polls ran); a `null`, empty,
HTML-shaped or thrown read continues.  Returns `none` when the budget is
exhausted without a usable value. -/
def pollFrom (reads : Nat → KVOutcome (Option String)) : Nat → Nat → Option (String × Nat)
  | _, 0 => none
  | i, n + 1 =>
    match reads i with
    | .ok (some md) =>
      if md != "" && !isHTML md then some (md, i + 1) else pollFrom reads (i + 1) n
    | _ => pollFrom reads (i + 1) n

/-- Oracle inputs for one `_handleRenderLogic` request: the credential
header, the KV collaborator for auth reads, the `url` parameter, the
cache/pending reads, the per-iteration wait-loop reads, the extraction
outcome, and the origin outcome consumed by `fetchFallback`. -/
structure RenderOracle where
  token : Option String
  authStore : String → KVOutcome (Option CustomerConfig)
  urlParam : Option String
  cacheRead : KVOutcome (Option String)
  pendingRead : KVOutcome (Option String)
  pollRead : Nat → KVOutcome (Option String)
  scrape : Option ScrapeData
  fallbackOrigin : Option (Nat × String)

/-- A request outcome together with the observable trace the claims need:
whether `scrapeWithTimeout` was invoked, and how many wait-loop polls ran. -/
structure RenderResult where
  response : HttpResponse
  scrapeInvoked : Bool
  pollsUsed : Nat
deriving DecidableEq

/-- The extraction phase of `_handleRenderLogic` (worker lines 723-776):
the pending marker is written (best-effort), `scrapeWithTimeout` is invoked,
a truthy markdown result is served as a 200 miss, anything else falls back
to origin content. -/
def renderExtract (o : RenderOracle) : RenderResult :=
  match o.scrape with
  | some sr =>
    if sr.markdown != "" then
      { response := mdResponseAPI sr.markdown "miss", scrapeInvoked := true, pollsUsed := 0 }
    else
      { response := fetchFallback o.fallbackOrigin, scrapeInvoked := true, pollsUsed := 0 }
  | none =>
    { response := fetchFallback o.fallbackOrigin, scrapeInvoked := true, pollsUsed := 0 }

/-- The single-flight phase of `_handleRenderLogic` (worker lines 689-721):
a truthy pending marker sends the request into the bounded wait loop —
a value found there is served as a hit, and an exhausted budget returns
`fetchFallback` WITHOUT invoking the extraction backend; an absent (or
falsy, or unreadable) marker proceeds to the extraction phase. -/
def renderAfterCache (o : RenderOracle) : RenderResult :=
  match cachedValue o.pendingRead with
  | some p =>
    if p != "" then
      match pollFrom o.pollRead 0 POLL_COUNT with
      | some (md, used) =>
        { response := mdResponseAPI md "hit", scrapeInvoked := false, pollsUsed := used }
      | none =>
        { response := fetchFallback o.fallbackOrigin, scrapeInvoked := false,
          pollsUsed := POLL_COUNT }
    else renderExtract o
  | none => renderExtract o

/-- `_handleRenderLogic` (worker lines 606-777) over its oracle: auth
(missing header, dual lookup, unavailable store, malformed config), URL
validation (missing / unparseable / non-https), domain allowlist on the
lowercased `www.`-stripped hostname, the literal private-address filter,
then cache hit / single-flight / extract / fallback. -/
def _handleRenderLogic (o : RenderOracle) : RenderResult :=
  match o.token with
  | none =>
    { response := jsonResponse "Missing X-Rosetta-Token header" 401,
      scrapeInvoked := false, pollsUsed := 0 }
  | some token =>
    match authLookup token o.authStore with
    | .unavailable =>
      { response := jsonResponse "Auth service unavailable" 503,
        scrapeInvoked := false, pollsUsed := 0 }
    | .invalid =>
      { response := jsonResponse "Invalid API token" 401,
        scrapeInvoked := false, pollsUsed := 0 }
    | .resolved customer =>
      match customerIdOf customer with
      | none =>
        { response := jsonResponse "Invalid customer config format" 500,
          scrapeInvoked := false, pollsUsed := 0 }
      | some _ =>
        match o.urlParam with
        | none =>
          { response := jsonResponse "Missing url parameter" 400,
            scrapeInvoked := false, pollsUsed := 0 }
        | some targetUrl =>
          match parseURL targetUrl.data with
          | none =>
            { response := jsonResponse "Invalid URL format" 400,
              scrapeInvoked := false, pollsUsed := 0 }
          | some parsed =>
            if parsed.scheme ≠ "https".data then
              { response := jsonResponse "URL must use https" 400,
                scrapeInvoked := false, pollsUsed := 0 }
            else
              let hostname := String.mk (stripWWW (lowerAscii parsed.host))
              if !domainAllowed customer hostname then
                { response :=
                    jsonResponse ("Domain \x27" ++ hostname ++ "\x27 not in allowlist") 403,
                  scrapeInvoked := false, pollsUsed := 0 }
              else if isPrivateHost (String.mk parsed.host) then
                { response := jsonResponse "Private/internal addresses not allowed" 400,
                  scrapeInvoked := false, pollsUsed := 0 }
              else
                match cachedValue o.cacheRead with
                | some cached =>
                  if cached != "" && !isHTML cached then
                    { response := mdResponseAPI cached "hit",
                      scrapeInvoked := false, pollsUsed := 0 }
                  else renderAfterCache o
                | none => renderAfterCache o

/-- Proxy-mode markdown headers for a cache hit (worker lines 843-848 and
869-874). -/
def mdHeadersProxyHit : List (String × String) :=
  [("Content-Type", "text/markdown; charset=utf-8"), ("Vary", "User-Agent"),
   ("X-Rosetta-Status", "HIT"), ("X-Rosetta-Savings", "98%")]

/-- Proxy-mode markdown headers for a fresh extraction (worker lines
910-914). -/
def mdHeadersProxyMiss : List (String × String) :=
  [("Content-Type", "text/markdown; charset=utf-8"), ("Vary", "User-Agent"),
   ("X-Rosetta-Status", "MISS (Rendered)")]

/-- An origin response as `proxyToOrigin` resolves it. -/
structure OriginResponse where
  status : Nat
  headers : List (String × String)
  body : String
deriving DecidableEq

/-- Oracle inputs for the proxy-mode bot path. -/
structure ProxyOracle where
  cacheRead : KVOutcome (Option String)
  pendingRead : KVOutcome (Option String)
  pollRead : Nat → KVOutcome (Option String)
  scrape : Option ScrapeData
  originFetch : Option OriginResponse

/-- Proxy-mode outcome with the same observable trace as `RenderResult`. -/
structure ProxyResult where
  response : HttpResponse
  scrapeInvoked : Bool
  pollsUsed : Nat
deriving DecidableEq

/-- The proxy-mode fallback (worker lines 918-929): `proxyToOrigin` is
awaited WITHOUT a surrounding try/catch, and `proxyToOrigin` itself does not
catch its `fetch` (worker line 1438), so a rejected origin fetch propagates
out of `handleProxyMode` — modelled as `Except.error ()`, the runtime-error
outcome in which no 200 response reaches the crawler.  On a resolved fetch
the origin body is re-wrapped with status 200 and the indicator headers. -/
def proxyFallbackPhase (o : ProxyOracle) (used : Nat) : Except Unit ProxyResult :=
  match o.originFetch with
  | none => Except.error ()
  | some origin =>
    let hs0 := setHeader origin.headers "Vary" "User-Agent"
    let hs1 := setHeader hs0 "X-Rosetta-Status" "FAIL (Fallback)"
    let hs2 := setHeader hs1 "X-Rosetta-Origin-Status" (toString origin.status)
    let hs3 := setHeader hs2 "Vary" "User-Agent"
    Except.ok { response := { status := 200, headers := hs3, body := RespBody.text origin.body }
                scrapeInvoked := true, pollsUsed := used }

/-- The proxy-mode extraction phase (worker lines 884-916): pending marker
written, `scrapeWithTimeout` invoked; a truthy markdown result is served as
`MISS (Rendered)`, otherwise control falls to the origin fallback. -/
def proxyScrapePhase (o : ProxyOracle) (used : Nat) : Except Unit ProxyResult :=
  match o.scrape with
  | some sr =>
    if sr.markdown != "" then
      Except.ok { response := { status := 200, headers := mdHeadersProxyMiss,
                                body := RespBody.text sr.markdown }
                  scrapeInvoked := true, pollsUsed := used }
    else proxyFallbackPhase o used
  | none => proxyFallbackPhase o used

/-- The proxy-mode single-flight phase (worker lines 852-882): with a truthy
pending marker the bounded wait loop runs; a value found there is served as
a hit, but an exhausted budget FALLS THROUGH to the extraction phase (the
`// Timeout, fall through to scrape or origin` comment) — unlike API mode,
the waiter then invokes the extraction backend itself. -/
def proxyAfterCache (o : ProxyOracle) : Except Unit ProxyResult :=
  match cachedValue o.pendingRead with
  | some p =>
    if p != "" then
      match pollFrom o.pollRead 0 POLL_COUNT with
      | some (md, used) =>
        Except.ok { response := { status := 200, headers := mdHeadersProxyHit,
                                  body := RespBody.text md }
                    scrapeInvoked := false, pollsUsed := used }
      | none => proxyScrapePhase o POLL_COUNT
    else proxyScrapePhase o 0
  | none => proxyScrapePhase o 0

/-- The proxy-mode bot path (worker lines 829-929), entered once the
request is classified as an AI crawler: cache hit, else single-flight /
extract / fallback. -/
def handleProxyBotPath (o : ProxyOracle) : Except Unit ProxyResult :=
  match cachedValue o.cacheRead with
  | some cached =>
    if cached != "" && !isHTML cached then
      Except.ok { response := { status := 200, headers := mdHeadersProxyHit,
                                body := RespBody.text cached }
                  scrapeInvoked := false, pollsUsed := 0 }
    else proxyAfterCache o
  | none => proxyAfterCache o

/-- The classification step of `handleProxyMode` (worker lines 784 and 816):
the `user-agent` header is read with `|| ''` and lowercased, and `isAIBot`
is called WITHOUT a customer config argument. -/
def handleProxyModeIsBot (ua : Option String) : Bool :=
  isAIBot (some (lowerStr (ua.getD ""))) none

/-- Terminal outcome of one request thread in the single-flight machine.
`hit` is a cache value observed (initial read or wait loop), `fallbackWait`
the exhausted wait loop, `served` a successful own extraction, and
`fallbackScrape` an own extraction that failed. -/
inductive Outcome where
  | hit (v : String)
  | fallbackWait
  | served (v : String)
  | fallbackScrape
deriving DecidableEq

/-- Program counter of one API-mode cache-miss thread, one constructor per
`await` in `_handleRenderLogic`'s coordination code: `start` is the initial
cache read (line 672), `checkPending` the pending read (line 693),
`acquire` the separate pending write (line 725) — the read and the write
are distinct awaits, which is exactly the race window — `waiting n` the
wait loop with `n` polls left, `toScrape` the extraction call,
`toWriteCache` the cache write-back, and `toRelease` the pending delete. -/
inductive TState where
  | start
  | checkPending
  | acquire
  | waiting (n : Nat)
  | toScrape
  | toWriteCache (md : String)
  | toRelease (next : Outcome)
  | done (o : Outcome)
deriving DecidableEq

/-- Shared state: the pending lease, the cache entry, the number of
extraction-backend invocations so far, and the thread states. -/
structure Sys where
  pending : Bool
  cache : Option String
  scrapes : Nat
  threads : List TState
deriving DecidableEq

/-- The `if (cached && !isHTML(cached))` usability test on a cache read. -/
def validCache (c : Option String) : Option String :=
  match c with
  | some v => if v != "" && !isHTML v then some v else none
  | none => none

/-- One atomic step of a single thread: `res` is the extraction outcome
this thread would obtain.  Returns the new shared state and thread state. -/
def stepT (res : Option String) (pending : Bool) (cache : Option String) (scrapes : Nat) :
    TState → Bool × Option String × Nat × TState
  | .start =>
    match validCache cache with
    | some v => (pending, cache, scrapes, .done (.hit v))
    | none => (pending, cache, scrapes, .checkPending)
  | .checkPending =>
    if pending then (pending, cache, scrapes, .waiting POLL_COUNT)
    else (pending, cache, scrapes, .acquire)
  | .acquire => (true, cache, scrapes, .toScrape)
  | .waiting 0 => (pending, cache, scrapes, .done .fallbackWait)
  | .waiting (n + 1) =>
    match validCache cache with
    | some v => (pending, cache, scrapes, .done (.hit v))
    | none => (pending, cache, scrapes, .waiting n)
  | .toScrape =>
    match res with
    | some md => (pending, cache, scrapes + 1, .toWriteCache md)
    | none => (pending, cache, scrapes + 1, .toRelease .fallbackScrape)
  | .toWriteCache md => (pending, some md, scrapes, .toRelease (.served md))
  | .toRelease nxt => (false, cache, scrapes, .done nxt)
  | .done o => (pending, cache, scrapes, .done o)

/-- Take one step of thread `i` (out-of-range indices are no-ops).
`scrapeRes i` is the extraction outcome thread `i` would obtain. -/
def stepSys (scrapeRes : Nat → Option String) (s : Sys) (i : Nat) : Sys :=
  match s.threads[i]? with
  | none => s
  | some t =>
    let r := stepT (scrapeRes i) s.pending s.cache s.scrapes t
    { pending := r.1, cache := r.2.1, scrapes := r.2.2.1, threads := s.threads.set i r.2.2.2 }

/-- Run a schedule (a list of thread indices) from a state. -/
def runSched (scrapeRes : Nat → Option String) (s : Sys) : List Nat → Sys
  | [] => s
  | i :: rest => runSched scrapeRes (stepSys scrapeRes s i) rest

/-- Thread states carrying the result of this thread's own extraction call
(reached only after the `toScrape` step ran). -/
def isPostScrape : TState → Bool
  | .toWriteCache _ => true
  | .toRelease (.served _) => true
  | .toRelease .fallbackScrape => true
  | .done (.served _) => true
  | .done .fallbackScrape => true
  | _ => false

/-- Number of threads past their own extraction call. -/
def countScraped (ts : List TState) : Nat :=
  (ts.filter isPostScrape).length

/-- Thread states of a request that observed another holder's lease: it is
waiting, or finished with a hit or the wait-timeout fallback. -/
def isWaiter : TState → Bool
  | .waiting _ => true
  | .done (.hit _) => true
  | .done .fallbackWait => true
  | _ => false

/-- Characters with equal code points are equal. -/
theorem char_eq_of_toNat_eq {a b : Char} (h : a.toNat = b.toNat) : a = b :=
  Char.eq_of_val_eq (UInt32.ext h)

/-- `Char.ofNat` inverts `toNat` below the surrogate range. -/
theorem toNat_ofNat_valid (n : Nat) (h : n < 55296) : (Char.ofNat n).toNat = n := by
  unfold Char.ofNat
  rw [dif_pos (Or.inl h : Nat.isValidChar n)]
  rfl

/-- Case split for `lowerChar`: either the character is untouched, or it is
an uppercase ASCII letter shifted by 32. -/
theorem lowerChar_spec (c : Char) :
    (¬(65 ≤ c.toNat ∧ c.toNat ≤ 90) ∧ lowerChar c = c) ∨
      ((65 ≤ c.toNat ∧ c.toNat ≤ 90) ∧ (lowerChar c).toNat = c.toNat + 32) := by
  by_cases h : 65 ≤ c.toNat ∧ c.toNat ≤ 90
  · right
    refine ⟨h, ?_⟩
    unfold lowerChar
    rw [if_pos h]
    exact toNat_ofNat_valid _ (by omega)
  · left
    exact ⟨h, by unfold lowerChar; rw [if_neg h]⟩

/-- A lowercase ASCII letter is a fixed point of `lowerChar`. -/
theorem lowerChar_fix_lower {c : Char} (h1 : 97 ≤ c.toNat) (h2 : c.toNat ≤ 122) :
    lowerChar c = c := by
  unfold lowerChar
  rw [if_neg (by omega)]

/-- Lowercasing is idempotent. -/
theorem lowerChar_idem (c : Char) : lowerChar (lowerChar c) = lowerChar c := by
  rcases lowerChar_spec c with ⟨_, h⟩ | ⟨_, h⟩
  · rw [h, h]
  · exact lowerChar_fix_lower (by omega) (by omega)

/-- Lowercasing cannot produce a character outside `a`-`z` that it did not
start from; in particular it preserves being distinct from any
non-lowercase-letter character (all URL delimiters qualify). -/
theorem lowerChar_ne_of_ne {c d : Char} (hd : ¬(97 ≤ d.toNat ∧ d.toNat ≤ 122))
    (h : c ≠ d) : lowerChar c ≠ d := by
  rcases lowerChar_spec c with ⟨_, hc⟩ | ⟨hr, hc⟩
  · rw [hc]; exact h
  · intro he
    apply hd
    rw [← he, hc]
    omega

/-- Lowercasing an ASCII letter lands in `a`-`z`. -/
theorem lowerChar_alpha {c : Char} (h : isAlphaChar c = true) :
    97 ≤ (lowerChar c).toNat ∧ (lowerChar c).toNat ≤ 122 := by
  unfold isAlphaChar at h
  rcases lowerChar_spec c with ⟨hn, hc⟩ | ⟨hr, hc⟩
  · rw [hc]
    simp only [Bool.or_eq_true, Bool.and_eq_true, decide_eq_true_eq] at h
    rcases h with h | h
    · exact absurd h hn
    · exact h
  · omega

/-- `lowerAscii` is idempotent. -/
theorem lowerAscii_idem (l : List Char) : lowerAscii (lowerAscii l) = lowerAscii l := by
  unfold lowerAscii
  rw [List.map_map]
  exact List.map_congr_left (fun c _ => lowerChar_idem c)

/-- Splitting an append at the first element failing the predicate. -/
theorem takeDrop_split {α} (p : α → Bool) (xs : List α) (x : α) (ys : List α)
    (hxs : ∀ a ∈ xs, p a = true) (hx : p x = false) :
    (xs ++ x :: ys).takeWhile p = xs ∧ (xs ++ x :: ys).dropWhile p = x :: ys := by
  induction xs with
  | nil =>
    simp only [List.nil_append, List.takeWhile_cons, List.dropWhile_cons, hx]
    exact ⟨rfl, rfl⟩
  | cons a as ih =>
    have ha : p a = true := hxs a (by simp)
    have ihr := ih (fun b hb => hxs b (by simp [hb]))
    simp only [List.cons_append, List.takeWhile_cons, List.dropWhile_cons, ha, ihr.1, ihr.2]
    exact ⟨rfl, rfl⟩

/-- A list all of whose elements satisfy the predicate is its own
`takeWhile`, with empty `dropWhile`. -/
theorem takeDrop_all {α} {p : α → Bool} {l : List α} (h : ∀ a ∈ l, p a = true) :
    l.takeWhile p = l ∧ l.dropWhile p = [] :=
  ⟨List.takeWhile_eq_self_iff.mpr h, List.dropWhile_eq_nil_iff.mpr h⟩

/-- The head of a non-empty `dropWhile` fails the predicate. -/
theorem dropWhile_eq_cons_head {α} {p : α → Bool} {l : List α} {x : α} {xs : List α}
    (h : l.dropWhile p = x :: xs) : p x = false := by
  have hh := List.head?_dropWhile_not p l
  rw [h] at hh
  exact hh

/-- `splitAmp` never returns the empty chunk list. -/
theorem splitAmp_ne_nil (l : List Char) : splitAmp l ≠ [] := by
  induction l with
  | nil => simp [splitAmp]
  | cons c t ih =>
    simp only [splitAmp]
    split
    · simp
    · split
      · simp
      · simp

/-- A chunk without `&` splits into itself. -/
theorem splitAmp_no_amp {l : List Char} (h : '&' ∉ l) : splitAmp l = [l] := by
  induction l with
  | nil => rfl
  | cons c t ih =>
    have hc : ¬(c = '&') := fun he => h (he ▸ List.mem_cons_self c t)
    have ht := ih (fun hm => h (List.mem_cons_of_mem c hm))
    simp only [splitAmp, if_neg hc, ht]

/-- Splitting a chunk glued by `&` onto a rest. -/
theorem splitAmp_amp_append {c rest : List Char} (h : '&' ∉ c) :
    splitAmp (c ++ '&' :: rest) = c :: splitAmp rest := by
  induction c with
  | nil => simp [splitAmp]
  | cons a as ih =>
    have ha : ¬(a = '&') := fun he => h (he ▸ List.mem_cons_self a as)
    have has := ih (fun hm => h (List.mem_cons_of_mem a hm))
    rw [List.cons_append, splitAmp, if_neg ha, has]

/-- `splitAmp` inverts `joinAmp` on non-empty, `&`-free chunk lists. -/
theorem splitAmp_joinAmp {chunks : List (List Char)} (hne : chunks ≠ [])
    (hamp : ∀ c ∈ chunks, '&' ∉ c) : splitAmp (joinAmp chunks) = chunks := by
  induction chunks with
  | nil => exact absurd rfl hne
  | cons c cs ih =>
    cases cs with
    | nil =>
      simp only [joinAmp]
      exact splitAmp_no_amp (hamp c (by simp))
    | cons c2 cs2 =>
      have hj : joinAmp (c :: c2 :: cs2) = c ++ '&' :: joinAmp (c2 :: cs2) := rfl
      rw [hj, splitAmp_amp_append (hamp c (by simp))]
      rw [ih (by simp) (fun d hd => hamp d (List.mem_cons_of_mem c hd))]

/-- Every character of every chunk of `splitAmp q` is a non-`&` character
of `q`. -/
theorem splitAmp_chars : ∀ {q ch : List Char}, ch ∈ splitAmp q →
    ∀ c ∈ ch, c ∈ q ∧ c ≠ '&' := by
  intro q
  induction q with
  | nil =>
    intro ch hch c hc
    simp only [splitAmp] at hch
    rcases List.mem_cons.mp hch with he | hm
    · subst he; simp at hc
    · simp at hm
  | cons a t ih =>
    intro ch hch c hc
    by_cases ha : a = '&'
    · rw [splitAmp, if_pos ha] at hch
      rcases List.mem_cons.mp hch with he | hm
      · subst he; simp at hc
      · rcases ih hm c hc with ⟨h1, h2⟩
        exact ⟨List.mem_cons_of_mem a h1, h2⟩
    · rw [splitAmp, if_neg ha] at hch
      cases hs : splitAmp t with
      | nil => exact absurd hs (splitAmp_ne_nil t)
      | cons hh hr =>
        rw [hs] at hch
        rcases List.mem_cons.mp hch with he | hm
        · subst he
          rcases List.mem_cons.mp hc with hce | hcm
          · subst hce; exact ⟨List.mem_cons_self c t, ha⟩
          · rcases ih (hs ▸ List.mem_cons_self hh hr) c hcm with ⟨h1, h2⟩
            exact ⟨List.mem_cons_of_mem a h1, h2⟩
        · rcases ih (hs ▸ List.mem_cons_of_mem hh hm) c hc with ⟨h1, h2⟩
          exact ⟨List.mem_cons_of_mem a h1, h2⟩

/-- `parsePair` inverts the `name=value` rendering when the name is
`=`-free. -/
theorem parsePair_roundtrip {k v : List Char} (hk : '=' ∉ k) :
    parsePair (k ++ '=' :: v) = (k, v) := by
  have hsplit := takeDrop_split (fun c => decide (c ≠ '=')) k '=' v
    (fun a ha => by
      simp only [decide_eq_true_eq]
      exact fun he => hk (he ▸ ha))
    (by simp)
  unfold parsePair
  rw [hsplit.1, hsplit.2]

/-- Characters of the pairs produced by `parseQuery` come from the query
and exclude the structural delimiters. -/
theorem parseQuery_chars {q : List Char} {p : List Char × List Char}
    (hp : p ∈ parseQuery q) :
    ('=' ∉ p.1) ∧ (∀ c ∈ p.1, c ∈ q ∧ c ≠ '&') ∧ (∀ c ∈ p.2, c ∈ q ∧ c ≠ '&') := by
  unfold parseQuery at hp
  rcases List.mem_map.mp hp with ⟨ch, hch, hpp⟩
  have hchm : ch ∈ splitAmp q := (List.mem_filter.mp hch).1
  have hchars := splitAmp_chars hchm
  subst hpp
  have hq1 : (parsePair ch).1 = ch.takeWhile (fun c => decide (c ≠ '=')) := rfl
  have hq2 : (parsePair ch).2 = (match ch.dropWhile (fun c => decide (c ≠ '=')) with
      | _ :: t => t
      | [] => []) := rfl
  refine ⟨?_, ?_, ?_⟩
  · intro hmem
    rw [hq1] at hmem
    have h2 := List.mem_takeWhile_imp hmem
    simp at h2
  · intro c hc
    rw [hq1] at hc
    exact hchars c ((List.takeWhile_sublist _).subset hc)
  · intro c hc
    rw [hq2] at hc
    cases hd : ch.dropWhile (fun c => decide (c ≠ '=')) with
    | nil =>
      rw [hd] at hc
      simp at hc
    | cons x xs =>
      rw [hd] at hc
      exact hchars c ((List.dropWhile_sublist _).subset (hd ▸ List.mem_cons_of_mem x hc))

/-- `parseQuery` inverts `serializeQuery` on well-formed pair lists. -/
theorem parseQuery_serializeQuery {ps : List (List Char × List Char)}
    (h : ∀ p ∈ ps, '&' ∉ p.1 ∧ '=' ∉ p.1 ∧ '&' ∉ p.2) :
    parseQuery (serializeQuery ps) = ps := by
  cases ps with
  | nil => rfl
  | cons p0 ps0 =>
    unfold parseQuery serializeQuery
    have hij : splitAmp (joinAmp ((p0 :: ps0).map (fun p => p.1 ++ '=' :: p.2))) =
        (p0 :: ps0).map (fun p => p.1 ++ '=' :: p.2) := by
      refine splitAmp_joinAmp (by simp) ?_
      intro c hc
      rcases List.mem_map.mp hc with ⟨p, hp, hcp⟩
      rcases h p hp with ⟨h1, h2, h3⟩
      subst hcp
      intro hmem
      rcases List.mem_append.mp hmem with hm | hm
      · exact h1 hm
      · rcases List.mem_cons.mp hm with he | hm2
        · exact absurd he.symm (by decide)
        · exact h3 hm2
    rw [hij]
    have hfil : ((p0 :: ps0).map (fun p => p.1 ++ '=' :: p.2)).filter
        (fun c => !c.isEmpty) = (p0 :: ps0).map (fun p => p.1 ++ '=' :: p.2) := by
      refine List.filter_eq_self.mpr ?_
      intro a ha
      rcases List.mem_map.mp ha with ⟨p, hp, hcp⟩
      subst hcp
      cases hp1 : p.1 with
      | nil => simp
      | cons x xs => simp
    rw [hfil, List.map_map]
    have : (parsePair ∘ fun p => p.1 ++ '=' :: p.2) = fun p : List Char × List Char =>
        parsePair (p.1 ++ '=' :: p.2) := rfl
    rw [this]
    have := List.map_congr_left (l := p0 :: ps0)
      (f := fun p : List Char × List Char => parsePair (p.1 ++ '=' :: p.2)) (g := id)
      (fun p hp => by
        show parsePair (p.1 ++ '=' :: p.2) = p
        rw [parsePair_roundtrip (h p hp).2.1])
    rw [this, List.map_id]

/-- Characters of `joinAmp` come from a chunk or are the separator. -/
theorem joinAmp_chars : ∀ {chunks : List (List Char)} {c : Char},
    c ∈ joinAmp chunks → (∃ ch ∈ chunks, c ∈ ch) ∨ c = '&' := by
  intro chunks
  induction chunks with
  | nil => intro c hc; simp [joinAmp] at hc
  | cons ch0 rest ih =>
    intro c hc
    cases rest with
    | nil =>
      simp only [joinAmp] at hc
      exact Or.inl ⟨ch0, by simp, hc⟩
    | cons ch1 rest1 =>
      have hj : joinAmp (ch0 :: ch1 :: rest1) = ch0 ++ '&' :: joinAmp (ch1 :: rest1) := rfl
      rw [hj] at hc
      rcases List.mem_append.mp hc with hm | hm
      · exact Or.inl ⟨ch0, by simp, hm⟩
      · rcases List.mem_cons.mp hm with he | hm2
        · exact Or.inr he
        · rcases ih hm2 with ⟨ch, hch, hcc⟩ | he
          · exact Or.inl ⟨ch, List.mem_cons_of_mem ch0 hch, hcc⟩
          · exact Or.inr he

/-- Characters of `serializeQuery` come from a pair or are delimiters. -/
theorem serializeQuery_chars {ps : List (List Char × List Char)} {c : Char}
    (hc : c ∈ serializeQuery ps) :
    (∃ p ∈ ps, c ∈ p.1 ∨ c ∈ p.2) ∨ c = '&' ∨ c = '=' := by
  unfold serializeQuery at hc
  rcases joinAmp_chars hc with ⟨ch, hch, hcc⟩ | he
  · rcases List.mem_map.mp hch with ⟨p, hp, hcp⟩
    subst hcp
    rcases List.mem_append.mp hcc with hm | hm
    · exact Or.inl ⟨p, hp, Or.inl hm⟩
    · rcases List.mem_cons.mp hm with he | hm2
      · exact Or.inr (Or.inr he)
      · exact Or.inl ⟨p, hp, Or.inr hm2⟩
  · exact Or.inr (Or.inl he)

/-- Well-formedness invariants of a parsed URL: exactly what a value in the
image of `parseURL` satisfies, and what the serializer needs for the
parse/print round-trip. -/
structure URLWF (u : URLModel) : Prop where
  scheme_ne : u.scheme ≠ []
  scheme_lower : ∀ c ∈ u.scheme, 97 ≤ c.toNat ∧ c.toNat ≤ 122
  host_ne : u.host ≠ []
  host_ok : ∀ c ∈ u.host, c ≠ '/' ∧ c ≠ '?' ∧ c ≠ '#' ∧ c ≠ ':' ∧ c ≠ '@'
  path_shape : ∃ t, u.path = '/' :: t
  path_ok : ∀ c ∈ u.path, c ≠ '?' ∧ c ≠ '#'
  params_ok : ∀ p ∈ u.params,
    ('&' ∉ p.1 ∧ '=' ∉ p.1 ∧ '#' ∉ p.1) ∧ ('&' ∉ p.2 ∧ '#' ∉ p.2)

/-- First component of `splitHash`. -/
theorem splitHash_fst (l : List Char) :
    (splitHash l).1 = l.takeWhile (fun c => decide (c ≠ '#')) := rfl

/-- First component of `splitQuery`. -/
theorem splitQuery_fst (l : List Char) :
    (splitQuery l).1 = l.takeWhile (fun c => decide (c ≠ '?')) := rfl

/-- A `some` query component comes from a `?` occurrence. -/
theorem splitQuery_snd_some {l q : List Char} (h : (splitQuery l).2 = some q) :
    ∃ x, l.dropWhile (fun c => decide (c ≠ '?')) = x :: q := by
  unfold splitQuery at h
  rcases hd : l.dropWhile (fun c => decide (c ≠ '?')) with _ | ⟨x, t⟩
  · rw [hd] at h
    simp at h
  · rw [hd] at h
    simp only [Option.some.injEq] at h
    exact ⟨x, by rw [h]⟩

/-- A `#`-free list has no fragment. -/
theorem splitHash_no_hash {l : List Char} (h : '#' ∉ l) : splitHash l = (l, none) := by
  have hall : ∀ a ∈ l, (fun c => decide (c ≠ '#')) a = true := by
    intro a ha
    simp only [decide_eq_true_eq]
    exact fun he => h (he ▸ ha)
  have ht := takeDrop_all hall
  unfold splitHash
  rw [ht.1, ht.2]

/-- Splitting a body glued to a fragment. -/
theorem splitHash_append {body f : List Char} (h : '#' ∉ body) :
    splitHash (body ++ '#' :: f) = (body, some f) := by
  have hs := takeDrop_split (fun c => decide (c ≠ '#')) body '#' f
    (fun a ha => by
      simp only [decide_eq_true_eq]
      exact fun he => h (he ▸ ha))
    (by simp)
  unfold splitHash
  rw [hs.1, hs.2]

/-- A `?`-free list has no query. -/
theorem splitQuery_no_q {l : List Char} (h : '?' ∉ l) : splitQuery l = (l, none) := by
  have hall : ∀ a ∈ l, (fun c => decide (c ≠ '?')) a = true := by
    intro a ha
    simp only [decide_eq_true_eq]
    exact fun he => h (he ▸ ha)
  have ht := takeDrop_all hall
  unfold splitQuery
  rw [ht.1, ht.2]

/-- Splitting a prefix glued to a query. -/
theorem splitQuery_append {pre q : List Char} (h : '?' ∉ pre) :
    splitQuery (pre ++ '?' :: q) = (pre, some q) := by
  have hs := takeDrop_split (fun c => decide (c ≠ '?')) pre '?' q
    (fun a ha => by
      simp only [decide_eq_true_eq]
      exact fun he => h (he ▸ ha))
    (by simp)
  unfold splitQuery
  rw [hs.1, hs.2]

/-- Everything `parseURL` returns is well-formed. -/
theorem parseURL_wf {l : List Char} {u : URLModel} (h : parseURL l = some u) : URLWF u := by
  unfold parseURL at h
  split at h
  case h_2 => exact absurd h (by simp)
  case h_1 x rest heq =>
    dsimp only at h
    split at h
    next => exact absurd h (by simp)
    next hsch =>
      split at h
      next => exact absurd h (by simp)
      next hhost =>
        injection h with h
        subst h
        rw [Bool.or_eq_true, not_or] at hsch hhost
        have hschemal : (l.takeWhile (fun c => decide (c ≠ ':'))).all isAlphaChar = true := by
          rcases hsch with ⟨_, h2⟩
          simpa using h2
        have hbody : ∀ c ∈ (splitHash rest).1, c ≠ '#' := by
          intro c hc
          rw [splitHash_fst] at hc
          have := List.mem_takeWhile_imp hc
          simpa using this
        have hbeforeq : ∀ c ∈ (splitQuery (splitHash rest).1).1,
            c ≠ '?' ∧ c ∈ (splitHash rest).1 := by
          intro c hc
          rw [splitQuery_fst] at hc
          refine ⟨by simpa using List.mem_takeWhile_imp hc, ?_⟩
          exact (List.takeWhile_sublist _).subset hc
        constructor
        · -- scheme nonempty
          rcases hsch with ⟨h1, _⟩
          simp only [List.isEmpty_iff] at h1
          simpa [lowerAscii] using h1
        · -- scheme lowercase
          intro c hc
          rcases List.mem_map.mp hc with ⟨a, ha, hca⟩
          subst hca
          exact lowerChar_alpha (List.all_eq_true.mp hschemal a ha)
        · -- host nonempty
          rcases hhost with ⟨h1, _⟩
          simpa [List.isEmpty_iff] using h1
        · -- host character constraints
          intro c hc
          have hslash : c ≠ '/' := by
            simpa using List.mem_takeWhile_imp hc
          have hc2 := (List.takeWhile_sublist _).subset hc
          rcases hbeforeq c hc2 with ⟨hq, hc3⟩
          have hhash := hbody c hc3
          rcases hhost with ⟨_, h2⟩
          have hca := List.any_eq_false.mp (Bool.eq_false_iff.mpr h2) c hc
          simp only [Bool.or_eq_true, decide_eq_true_eq, not_or] at hca
          exact ⟨hslash, hq, hhash, hca.1, hca.2⟩
        · -- path shape
          split
          next => exact ⟨[], rfl⟩
          next hne =>
            rcases hd : (splitQuery (splitHash rest).1).1.dropWhile
                (fun c => decide (c ≠ '/')) with _ | ⟨x2, xs⟩
            · rw [hd] at hne
              simp at hne
            · have hx := dropWhile_eq_cons_head hd
              simp only [decide_eq_false_iff_not, not_not] at hx
              subst hx
              exact ⟨xs, rfl⟩
        · -- path characters
          intro c hc
          split at hc
          next =>
            rcases List.mem_singleton.mp hc with rfl
            exact ⟨by decide, by decide⟩
          next hne =>
            have hc2 := (List.dropWhile_sublist _).subset hc
            rcases hbeforeq c hc2 with ⟨hq, hc3⟩
            exact ⟨hq, hbody c hc3⟩
        · -- parameter characters
          intro p hp
          rcases hsq : (splitQuery (splitHash rest).1).2 with _ | q
          · rw [hsq] at hp
            simp [queryParams] at hp
          · rw [hsq] at hp
            simp only [queryParams] at hp
            have hqsub : ∀ c ∈ q, c ≠ '#' := by
              intro c hc
              rcases splitQuery_snd_some hsq with ⟨x2, hdq⟩
              have hcd : c ∈ (splitHash rest).1.dropWhile (fun c => decide (c ≠ '?')) := by
                rw [hdq]
                exact List.mem_cons_of_mem x2 hc
              exact hbody c ((List.dropWhile_sublist _).subset hcd)
            rcases parseQuery_chars hp with ⟨heq2, h1, h2⟩
            refine ⟨⟨?_, heq2, ?_⟩, ?_, ?_⟩
            · intro hm
              exact (h1 '&' hm).2 rfl
            · intro hm
              exact hqsub '#' (h1 '#' hm).1 rfl
            · intro hm
              exact (h2 '&' hm).2 rfl
            · intro hm
              exact hqsub '#' (h2 '#' hm).1 rfl

/-- Lowercasing fixes an already-lowercase list. -/
theorem lowerAscii_fixed {l : List Char} (h : ∀ c ∈ l, 97 ≤ c.toNat ∧ c.toNat ≤ 122) :
    lowerAscii l = l := by
  unfold lowerAscii
  rw [List.map_congr_left (fun c hc => lowerChar_fix_lower (h c hc).1 (h c hc).2)]
  simp

/-- Evaluation of `parseURL` on an input whose scheme split is known and
whose host checks pass. -/
theorem parseURL_shape {l sch rest : List Char}
    (ht : l.takeWhile (fun c => decide (c ≠ ':')) = sch)
    (hd : l.dropWhile (fun c => decide (c ≠ ':')) = ':' :: '/' :: '/' :: rest)
    (hne : sch.isEmpty = false) (hal : sch.all isAlphaChar = true)
    (hhne : ((splitQuery (splitHash rest).1).1.takeWhile
      (fun c => decide (c ≠ '/'))).isEmpty = false)
    (hhan : ((splitQuery (splitHash rest).1).1.takeWhile
        (fun c => decide (c ≠ '/'))).any (fun c => decide (c = ':') || decide (c = '@')) =
        false) :
    parseURL l = some
      { scheme := lowerAscii sch
        host := (splitQuery (splitHash rest).1).1.takeWhile (fun c => decide (c ≠ '/'))
        path :=
          if ((splitQuery (splitHash rest).1).1.dropWhile
              (fun c => decide (c ≠ '/'))).isEmpty then ['/']
          else (splitQuery (splitHash rest).1).1.dropWhile (fun c => decide (c ≠ '/'))
        params := queryParams (splitQuery (splitHash rest).1).2
        frag := (splitHash rest).2 } := by
  unfold parseURL
  rw [ht, hd]
  dsimp only
  split
  next x r heq =>
    simp only [List.cons.injEq] at heq
    obtain ⟨-, -, -, rfl⟩ := heq
    rw [if_neg (by rw [hne, hal]; simp), if_neg (by rw [hhne, hhan]; simp)]
  next hno =>
    exact absurd rfl (hno rest)

/-- Print/parse round-trip: a well-formed, fragment-free URL value (such as
any output of `canonURL` on a parsed URL) parses back from its
serialization. -/
theorem serializeURL_parse {u : URLModel} (w : URLWF u) (hf : u.frag = none) :
    parseURL (serializeURL u) = some u := by
  obtain ⟨sch, host, pth, prm, frg⟩ := u
  obtain ⟨pt, hpath⟩ := w.path_shape
  dsimp only at hpath hf
  subst hpath
  subst hf
  have hw_scheme := w.scheme_lower
  have hw_host := w.host_ok
  have hw_path := w.path_ok
  have hw_params := w.params_ok
  dsimp only at hw_scheme hw_host hw_path hw_params
  -- the serialized string, grouped around the scheme separator
  have hser : serializeURL ⟨sch, host, '/' :: pt, prm, none⟩ =
      sch ++ ':' :: '/' :: '/' ::
        (host ++ ('/' :: pt ++
          (if prm.isEmpty then [] else '?' :: serializeQuery prm))) := by
    unfold serializeURL
    simp [List.append_assoc]
  -- scheme split
  have hschchars : ∀ a ∈ sch, (fun c => decide (c ≠ ':')) a = true := by
    intro a ha
    simp only [decide_eq_true_eq]
    intro he
    have hr := hw_scheme a ha
    rw [he] at hr
    exact absurd hr (by decide)
  have hsplit := takeDrop_split (fun c => decide (c ≠ ':')) sch ':'
    ('/' :: '/' ::
      (host ++ ('/' :: pt ++ (if prm.isEmpty then [] else '?' :: serializeQuery prm))))
    hschchars (by simp)
  have ht : (serializeURL ⟨sch, host, '/' :: pt, prm, none⟩).takeWhile
      (fun c => decide (c ≠ ':')) = sch := by
    rw [hser]
    exact hsplit.1
  have hd : (serializeURL ⟨sch, host, '/' :: pt, prm, none⟩).dropWhile
      (fun c => decide (c ≠ ':')) = ':' :: '/' :: '/' ::
        (host ++ ('/' :: pt ++
          (if prm.isEmpty then [] else '?' :: serializeQuery prm))) := by
    rw [hser]
    exact hsplit.2
  -- the remainder after the scheme separator
  have hrest_hash : '#' ∉ host ++ ('/' :: pt ++
      (if prm.isEmpty then [] else '?' :: serializeQuery prm)) := by
    intro hm
    rcases List.mem_append.mp hm with hm | hm
    · exact (hw_host '#' hm).2.2.1 rfl
    · rcases List.mem_append.mp hm with hm | hm
      · exact (hw_path '#' hm).2 rfl
      · rcases hpe : prm.isEmpty with _ | _
        · rw [hpe] at hm
          simp only [Bool.false_eq_true, if_false] at hm
          rcases List.mem_cons.mp hm with he | hm2
          · exact absurd he (by decide)
          · rcases serializeQuery_chars hm2 with ⟨p, hp, hpc⟩ | he | he
            · rcases hpc with hc | hc
              · exact (hw_params p hp).1.2.2 hc
              · exact (hw_params p hp).2.2 hc
            · exact absurd he (by decide)
            · exact absurd he (by decide)
        · rw [hpe] at hm
          simp at hm
  have hsh : splitHash (host ++ ('/' :: pt ++
      (if prm.isEmpty then [] else '?' :: serializeQuery prm))) =
      (host ++ ('/' :: pt ++
        (if prm.isEmpty then [] else '?' :: serializeQuery prm)), none) :=
    splitHash_no_hash hrest_hash
  have hsh1 : (splitHash (host ++ ('/' :: pt ++
      (if prm.isEmpty then [] else '?' :: serializeQuery prm)))).1 =
      host ++ ('/' :: pt ++
        (if prm.isEmpty then [] else '?' :: serializeQuery prm)) := by rw [hsh]
  have hsh2 : (splitHash (host ++ ('/' :: pt ++
      (if prm.isEmpty then [] else '?' :: serializeQuery prm)))).2 = none := by rw [hsh]
  -- query split of the remainder
  have hqmark : '?' ∉ host ++ '/' :: pt := by
    intro hm
    rcases List.mem_append.mp hm with hm | hm
    · exact (hw_host '?' hm).2.1 rfl
    · exact (hw_path '?' hm).1 rfl
  have hsq : splitQuery (host ++ ('/' :: pt ++
      (if prm.isEmpty then [] else '?' :: serializeQuery prm))) =
      (host ++ '/' :: pt,
        if prm.isEmpty then none else some (serializeQuery prm)) := by
    rcases hpe : prm.isEmpty with _ | _
    · rw [if_neg (show ¬(false = true) by simp), if_neg (show ¬(false = true) by simp)]
      rw [show host ++ ('/' :: pt ++ '?' :: serializeQuery prm) =
        (host ++ '/' :: pt) ++ '?' :: serializeQuery prm by simp [List.append_assoc]]
      exact splitQuery_append hqmark
    · rw [if_pos rfl, if_pos rfl, List.append_nil]
      exact splitQuery_no_q hqmark
  -- host split of the pre-query part
  have hhostchars : ∀ a ∈ host, (fun c => decide (c ≠ '/')) a = true := by
    intro a ha
    simp only [decide_eq_true_eq]
    exact (hw_host a ha).1
  have hhsplit := takeDrop_split (fun c => decide (c ≠ '/')) host '/' pt
    hhostchars (by simp)
  have hbq : (splitQuery ((splitHash (host ++ ('/' :: pt ++
      (if prm.isEmpty then [] else '?' :: serializeQuery prm)))).1)).1 =
      host ++ '/' :: pt := by
    rw [hsh1, hsq]
  have htw : ((splitQuery ((splitHash (host ++ ('/' :: pt ++
      (if prm.isEmpty then [] else '?' :: serializeQuery prm)))).1)).1).takeWhile
      (fun c => decide (c ≠ '/')) = host := by
    rw [hbq]
    exact hhsplit.1
  have hdw : ((splitQuery ((splitHash (host ++ ('/' :: pt ++
      (if prm.isEmpty then [] else '?' :: serializeQuery prm)))).1)).1).dropWhile
      (fun c => decide (c ≠ '/')) = '/' :: pt := by
    rw [hbq]
    exact hhsplit.2
  -- the checks parseURL performs
  have hne : sch.isEmpty = false :=
    Bool.eq_false_iff.mpr (fun hb => w.scheme_ne (List.isEmpty_iff.mp hb))
  have hal : sch.all isAlphaChar = true := by
    refine List.all_eq_true.mpr ?_
    intro a ha
    have hr := hw_scheme a ha
    simp only [isAlphaChar, Bool.or_eq_true, Bool.and_eq_true, decide_eq_true_eq]
    omega
  have hhne : (((splitQuery ((splitHash (host ++ ('/' :: pt ++
      (if prm.isEmpty then [] else '?' :: serializeQuery prm)))).1)).1).takeWhile
      (fun c => decide (c ≠ '/'))).isEmpty = false := by
    rw [htw]
    exact Bool.eq_false_iff.mpr (fun hb => w.host_ne (List.isEmpty_iff.mp hb))
  have hhan : ((((splitQuery ((splitHash (host ++ ('/' :: pt ++
      (if prm.isEmpty then [] else '?' :: serializeQuery prm)))).1)).1).takeWhile
      (fun c => decide (c ≠ '/'))).any
      (fun c => decide (c = ':') || decide (c = '@'))) = false := by
    rw [htw]
    refine List.any_eq_false.mpr ?_
    intro c hc
    simp only [Bool.or_eq_true, decide_eq_true_eq, not_or]
    exact ⟨(hw_host c hc).2.2.2.1, (hw_host c hc).2.2.2.2⟩
  rw [parseURL_shape ht hd hne hal hhne hhan]
  rw [htw, hdw, hsh1, hsq, hsh2, lowerAscii_fixed hw_scheme]
  rcases hpe : prm.isEmpty with _ | _
  · rw [if_neg (show ¬(false = true) by simp)]
    simp only [Option.some.injEq, URLModel.mk.injEq]
    refine ⟨trivial, trivial, by simp, ?_, trivial⟩
    have hqp : queryParams (some (serializeQuery prm)) = parseQuery (serializeQuery prm) := rfl
    rw [hqp]
    exact parseQuery_serializeQuery
      (fun p hp => ⟨(hw_params p hp).1.1, (hw_params p hp).1.2.1, (hw_params p hp).2.1⟩)
  · rw [if_pos rfl]
    have hprm : prm = [] := List.isEmpty_iff.mp hpe
    simp only [Option.some.injEq, URLModel.mk.injEq]
    exact ⟨trivial, trivial, by simp, by rw [hprm]; rfl, trivial⟩

/-- Canonicalization preserves well-formedness. -/
theorem canonURL_wf {u : URLModel} (w : URLWF u) : URLWF (canonURL u) := by
  constructor
  · -- scheme nonempty
    exact w.scheme_ne
  · exact w.scheme_lower
  · -- host nonempty
    intro hh
    exact w.host_ne (by simpa [canonURL, lowerAscii] using hh)
  · -- host characters
    intro c hc
    rcases List.mem_map.mp (by simpa [canonURL, lowerAscii] using hc) with ⟨a, ha, hca⟩
    subst hca
    rcases w.host_ok a ha with ⟨h1, h2, h3, h4, h5⟩
    exact ⟨lowerChar_ne_of_ne (by decide) h1, lowerChar_ne_of_ne (by decide) h2,
      lowerChar_ne_of_ne (by decide) h3, lowerChar_ne_of_ne (by decide) h4,
      lowerChar_ne_of_ne (by decide) h5⟩
  · exact w.path_shape
  · exact w.path_ok
  · -- parameters
    intro p hp
    have hp2 : p ∈ stripTracking u.params :=
      (List.perm_insertionSort paramRel _).subset hp
    exact w.params_ok p (List.mem_of_mem_filter hp2)

/-- The parameters of a canonicalized URL are already sorted, so sorting
again is the identity. -/
theorem sortParams_sortParams (ps : List (List Char × List Char)) :
    sortParams (sortParams ps) = sortParams ps :=
  List.Sorted.insertionSort_eq (List.sorted_insertionSort paramRel ps)

/-- Tracking-parameter removal is idempotent across a sort. -/
theorem stripTracking_sortParams_stripTracking (ps : List (List Char × List Char)) :
    stripTracking (sortParams (stripTracking ps)) = sortParams (stripTracking ps) := by
  refine List.filter_eq_self.mpr ?_
  intro p hp
  have hp2 : p ∈ stripTracking ps :=
    (List.perm_insertionSort paramRel _).subset hp
  unfold stripTracking at hp2
  exact (List.mem_filter.mp hp2).2

/-- The canonicalization core is idempotent on parsed URLs. -/
theorem canonURL_idem (u : URLModel) : canonURL (canonURL u) = canonURL u := by
  unfold canonURL
  simp only [URLModel.mk.injEq]
  refine ⟨trivial, lowerAscii_idem u.host, trivial, ?_, trivial⟩
  rw [stripTracking_sortParams_stripTracking, sortParams_sortParams]

/-- Claim C8: `canonicalize` is idempotent — for every input string that
parses as an absolute URL (so that `canonicalize` is defined), running
`canonicalize` on its own output returns that output unchanged. -/
theorem canonicalize_idem {s c : String} (h : canonicalize s = some c) :
    canonicalize c = some c := by
  unfold canonicalize at h ⊢
  cases hp : parseURL s.data with
  | none => rw [hp] at h; simp at h
  | some u =>
    rw [hp] at h
    have h2 : String.mk (serializeURL (canonURL u)) = c := by simpa using h
    subst h2
    have hcp : parseURL (String.mk (serializeURL (canonURL u))).data = some (canonURL u) := by
      show parseURL (serializeURL (canonURL u)) = some (canonURL u)
      exact serializeURL_parse (canonURL_wf (parseURL_wf hp)) rfl
    rw [hcp]
    show some (String.mk (serializeURL (canonURL (canonURL u)))) =
      some (String.mk (serializeURL (canonURL u)))
    rw [canonURL_idem]

/-- A permutation of pairwise-distinct-name parameter lists has a unique
stable sort: the two sorts agree.  (With duplicate names the stable sort
preserves input order, so this needs the `Nodup` hypothesis.) -/
theorem sortParams_eq_of_perm_nodup {ps qs : List (List Char × List Char)}
    (hperm : ps.Perm qs) (hnd : (ps.map Prod.fst).Nodup) :
    sortParams ps = sortParams qs := by
  have hA : (sortParams ps).Perm ps := List.perm_insertionSort paramRel ps
  have hB : (sortParams qs).Perm qs := List.perm_insertionSort paramRel qs
  have hAB : (sortParams ps).Perm (sortParams qs) := hA.trans (hperm.trans hB.symm)
  have hsA : List.Sorted paramRel (sortParams ps) := List.sorted_insertionSort paramRel ps
  have hsB : List.Sorted paramRel (sortParams qs) := List.sorted_insertionSort paramRel qs
  have hndA : ((sortParams ps).map Prod.fst).Nodup := (hA.map Prod.fst).nodup_iff.mpr hnd
  have hndB : ((sortParams qs).map Prod.fst).Nodup :=
    (hB.map Prod.fst).nodup_iff.mpr ((hperm.map Prod.fst).nodup_iff.mp hnd)
  have hpA : List.Pairwise (fun a b : List Char × List Char => paramRel a b ∧ a.1 ≠ b.1)
      (sortParams ps) := hsA.and (List.pairwise_map.mp hndA)
  have hpB : List.Pairwise (fun a b : List Char × List Char => paramRel a b ∧ a.1 ≠ b.1)
      (sortParams qs) := hsB.and (List.pairwise_map.mp hndB)
  haveI : IsAntisymm (List Char × List Char)
      (fun a b => paramRel a b ∧ a.1 ≠ b.1) :=
    ⟨fun a b ha hb => absurd (le_antisymm ha.1 hb.1) ha.2⟩
  exact List.eq_of_perm_of_sorted hAB hpA hpB

/-- Claim C9 (amended): fingerprints agree for URL strings that differ only
in fragment, in the presence of denylisted tracking parameters, in host
letter-case, and in the order of the retained query parameters — the last
PROVIDED the retained parameters have pairwise distinct names.  (The sort
is stable, so same-named parameters keep their relative input order; see
the counterexample theorem for the duplicate-name case the original claim
fails on.) -/
theorem fingerprint_equiv {s1 s2 : String} {u1 u2 : URLModel}
    (h1 : parseURL s1.data = some u1) (h2 : parseURL s2.data = some u2)
    (hscheme : u1.scheme = u2.scheme)
    (hhost : lowerAscii u1.host = lowerAscii u2.host)
    (hpath : u1.path = u2.path)
    (hperm : (stripTracking u1.params).Perm (stripTracking u2.params))
    (hnd : ((stripTracking u1.params).map Prod.fst).Nodup) :
    fingerprint s1 = fingerprint s2 := by
  have hc : canonURL u1 = canonURL u2 := by
    unfold canonURL
    rw [hscheme, hhost, hpath, sortParams_eq_of_perm_nodup hperm hnd]
  unfold fingerprint canonicalize
  rw [h1, h2]
  show some (sha256 (CANON_VERSION ++ ":" ++ String.mk (serializeURL (canonURL u1)))) =
    some (sha256 (CANON_VERSION ++ ":" ++ String.mk (serializeURL (canonURL u2))))
  rw [hc]

/-- Unfolding `countScraped` over a cons. -/
theorem countScraped_cons (t : TState) (ts : List TState) :
    countScraped (t :: ts) = (if isPostScrape t then 1 else 0) + countScraped ts := by
  unfold countScraped
  rw [List.filter_cons]
  split
  · simp only [List.length_cons]
    omega
  · simp

/-- Updating one thread changes the post-extraction count by that thread's
contribution. -/
theorem countScraped_set : ∀ (ts : List TState) (i : Nat) (t nt : TState),
    ts[i]? = some t →
    countScraped (ts.set i nt) + (if isPostScrape t then 1 else 0) =
      countScraped ts + (if isPostScrape nt then 1 else 0) := by
  intro ts
  induction ts with
  | nil => intro i t nt h; simp at h
  | cons a as ih =>
    intro i t nt h
    cases i with
    | zero =>
      simp only [List.getElem?_cons_zero, Option.some.injEq] at h
      subst h
      simp only [List.set_cons_zero, countScraped_cons]
      omega
    | succ j =>
      simp only [List.getElem?_cons_succ] at h
      simp only [List.set_cons_succ, countScraped_cons]
      have := ih j t nt h
      omega

/-- Per-step accounting: the extraction counter moves exactly when the
stepping thread enters a post-extraction state. -/
theorem stepT_scrapeBit (res : Option String) (p : Bool) (c : Option String) (k : Nat)
    (t : TState) :
    (stepT res p c k t).2.2.1 + (if isPostScrape t then 1 else 0) =
      k + (if isPostScrape (stepT res p c k t).2.2.2 then 1 else 0) := by
  cases t with
  | start =>
    rcases hv : validCache c with _ | v <;> simp [stepT, hv, isPostScrape]
  | checkPending =>
    cases p <;> simp [stepT, isPostScrape]
  | acquire => simp [stepT, isPostScrape]
  | waiting n =>
    cases n with
    | zero => simp [stepT, isPostScrape]
    | succ m =>
      rcases hv : validCache c with _ | v <;> simp [stepT, hv, isPostScrape]
  | toScrape =>
    rcases res with _ | md <;> simp [stepT, isPostScrape]
  | toWriteCache md => simp [stepT, isPostScrape]
  | toRelease nxt =>
    cases nxt <;> simp [stepT, isPostScrape]
  | done o => simp [stepT, isPostScrape]

/-- One system step preserves the quantity
`scrapes - (number of post-extraction threads)`. -/
theorem stepSys_scrapes (f : Nat → Option String) (s : Sys) (i : Nat) :
    (stepSys f s i).scrapes + countScraped s.threads =
      s.scrapes + countScraped (stepSys f s i).threads := by
  unfold stepSys
  cases hg : s.threads[i]? with
  | none => simp
  | some t =>
    simp only
    have hset := countScraped_set s.threads i t
      (stepT (f i) s.pending s.cache s.scrapes t).2.2.2 hg
    have hbit := stepT_scrapeBit (f i) s.pending s.cache s.scrapes t
    omega

/-- Run-level accounting: over any schedule, the number of
extraction-backend invocations equals the number of threads that moved into
post-extraction states. -/
theorem runSched_scrapes (f : Nat → Option String) :
    ∀ (L : List Nat) (s : Sys),
    (runSched f s L).scrapes + countScraped s.threads =
      s.scrapes + countScraped (runSched f s L).threads := by
  intro L
  induction L with
  | nil => intro s; rfl
  | cons i L ih =>
    intro s
    have h1 := stepSys_scrapes f s i
    have h2 := ih (stepSys f s i)
    unfold runSched
    omega

/-- A thread that observed another holder's lease (wait-loop family) stays
in that family: it polls, hits, or falls back, and never scrapes. -/
theorem stepT_waiter {t : TState} (res : Option String) (p : Bool) (c : Option String)
    (k : Nat) (hw : isWaiter t = true) :
    isWaiter (stepT res p c k t).2.2.2 = true := by
  cases t with
  | waiting n =>
    cases n with
    | zero => simp [stepT, isWaiter]
    | succ m =>
      rcases hv : validCache c with _ | v <;> simp [stepT, hv, isWaiter]
  | done o =>
    simpa [stepT, isWaiter] using hw
  | start => simp [isWaiter] at hw
  | checkPending => simp [isWaiter] at hw
  | acquire => simp [isWaiter] at hw
  | toScrape => simp [isWaiter] at hw
  | toWriteCache md => simp [isWaiter] at hw
  | toRelease nxt => simp [isWaiter] at hw

/-- Wait-family states are never post-extraction states. -/
theorem waiter_not_postScrape {t : TState} (hw : isWaiter t = true) :
    isPostScrape t = false := by
  cases t with
  | waiting n => simp [isPostScrape]
  | done o => cases o <;> simp_all [isWaiter, isPostScrape]
  | start => simp [isWaiter] at hw
  | checkPending => simp [isWaiter] at hw
  | acquire => simp [isWaiter] at hw
  | toScrape => simp [isWaiter] at hw
  | toWriteCache md => simp [isWaiter] at hw
  | toRelease nxt => simp [isWaiter] at hw

/-- Over any schedule, a thread that has entered the wait-loop family stays
in it (in particular it never invokes the extraction backend). -/
theorem runSched_waiter (f : Nat → Option String) :
    ∀ (L : List Nat) (s : Sys) (i : Nat) (t : TState),
    s.threads[i]? = some t → isWaiter t = true →
    ∃ t2, (runSched f s L).threads[i]? = some t2 ∧ isWaiter t2 = true := by
  intro L
  induction L with
  | nil => intro s i t hg hw; exact ⟨t, hg, hw⟩
  | cons j L ih =>
    intro s i t hg hw
    unfold runSched
    by_cases hij : j = i
    · subst hij
      refine ih (stepSys f s j) j (stepT (f j) s.pending s.cache s.scrapes t).2.2.2 ?_
        (stepT_waiter (f j) s.pending s.cache s.scrapes hw)
      unfold stepSys
      rw [hg]
      simp only
      have hlen : j < s.threads.length := (List.getElem?_eq_some_iff.mp hg).1
      exact List.getElem?_set_self (by simpa using hlen)
    · rcases hgj : s.threads[j]? with _ | tj
      · have : stepSys f s j = s := by unfold stepSys; rw [hgj]
        rw [this]
        exact ih s i t hg hw
      · refine ih (stepSys f s j) i t ?_ hw
        unfold stepSys
        rw [hgj]
        simp only
        rw [List.getElem?_set_ne hij]
        exact hg

/-- Pointwise-equal predicates give equal `any`. -/
theorem list_any_congr {α} {p q : α → Bool} :
    ∀ {l : List α}, (∀ a ∈ l, p a = q a) → l.any p = l.any q := by
  intro l
  induction l with
  | nil => intro h; rfl
  | cons a as ih =>
    intro h
    simp only [List.any_cons]
    rw [h a (by simp), ih (fun b hb => h b (List.mem_cons_of_mem a hb))]

/-- The wait loop reports at most `i + n` polls when started at index `i`
with budget `n`. -/
theorem pollFrom_le (reads : Nat → KVOutcome (Option String)) :
    ∀ (n i : Nat) (md : String) (used : Nat),
    pollFrom reads i n = some (md, used) → used ≤ i + n := by
  intro n
  induction n with
  | zero =>
    intro i md used h
    rw [pollFrom] at h
    exact absurd h (by simp)
  | succ m ih =>
    intro i md used h
    rw [pollFrom] at h
    split at h
    all_goals try (have hih := ih (i + 1) md used h; omega)
    split at h
    · simp only [Option.some.injEq, Prod.mk.injEq] at h
      omega
    · have := ih (i + 1) md used h
      omega

/-- Every successful outcome of the proxy extraction phase has the
extraction backend invoked. -/
theorem proxyScrapePhase_invoked (o : ProxyOracle) (used : Nat) (r : ProxyResult)
    (h : proxyScrapePhase o used = Except.ok r) : r.scrapeInvoked = true := by
  unfold proxyScrapePhase proxyFallbackPhase at h
  split at h
  · split at h
    · injection h with h
      rw [← h]
    · split at h
      · exact absurd h (by simp)
      · injection h with h
        rw [← h]
  · split at h
    · exact absurd h (by simp)
    · injection h with h
      rw [← h]

/-- Unfolding lemma for `isAIBot` on a present identity string. -/
theorem isAIBot_some (u : String) (cfg : Option CustomerConfig) :
    isAIBot (some u) cfg =
      if u = "" then false
      else if (excludesOf cfg).any (fun bot => strContains (lowerStr u) (lowerStr bot))
        then false
      else (AI_BOTS ++ includesOf cfg).any
        (fun bot => strContains (lowerStr u) (lowerStr bot)) := rfl

/-- Claim C5: bot classification.  An absent (or empty, both falsy in JS)
identity string classifies as not-a-bot; a tenant `exclude` substring match
forces not-a-bot regardless of the default list and of any `include` entry;
with no exclude match, the decision is a substring match against the
default AI-crawler list unioned with the tenant `include` overrides. -/
theorem c5_bot_classification :
    (∀ cfg, isAIBot none cfg = false ∧ isAIBot (some "") cfg = false) ∧
    (∀ (ua : String) (cfg : Option CustomerConfig) (e : String), ua ≠ "" →
      e ∈ excludesOf cfg → strContains (lowerStr ua) (lowerStr e) = true →
      isAIBot (some ua) cfg = false) ∧
    (∀ (ua : String) (cfg : Option CustomerConfig), ua ≠ "" →
      (∀ e ∈ excludesOf cfg, strContains (lowerStr ua) (lowerStr e) = false) →
      isAIBot (some ua) cfg =
        (AI_BOTS ++ includesOf cfg).any
          (fun bot => strContains (lowerStr ua) (lowerStr bot))) := by
  refine ⟨fun cfg => ⟨rfl, rfl⟩, ?_, ?_⟩
  · intro ua cfg e hne he hm
    rw [isAIBot_some, if_neg hne, List.any_eq_true.mpr ⟨e, he, hm⟩]
    simp
  · intro ua cfg hne hex
    rw [isAIBot_some, if_neg hne,
      List.any_eq_false.mpr (fun e he => by rw [hex e he]; simp)]
    simp

/-- Witness for C5 at concrete inputs: `bytespider` is on the default list,
yet a tenant exclude of `bytespider` vetoes it; and with no excludes the
decision equals the default-union-include match. -/
theorem c5_bot_classification_witness :
    isAIBot (some "Mozilla/5.0 Bytespider/1.0")
      (some { bot_overrides := some { exclude := ["bytespider"] } }) = false ∧
    isAIBot (some "Mozilla/5.0 GPTBot/1.0") none =
      (AI_BOTS ++ includesOf none).any
        (fun bot => strContains (lowerStr "Mozilla/5.0 GPTBot/1.0") (lowerStr bot)) :=
  ⟨c5_bot_classification.2.1 "Mozilla/5.0 Bytespider/1.0"
      (some { bot_overrides := some { exclude := ["bytespider"] } }) "bytespider"
      (by decide) (by decide) (by decide),
   c5_bot_classification.2.2 "Mozilla/5.0 GPTBot/1.0" none (by decide) (by decide)⟩

/-- Claim C10: in proxy mode the classifier is invoked with no tenant
config (worker line 816), so no include/exclude override is consulted: the
decision equals a substring match against the global default list alone,
for every request. -/
theorem c10_proxy_classification_default_only :
    ∀ ua : Option String, handleProxyModeIsBot ua =
      AI_BOTS.any (fun bot => strContains (lowerStr (ua.getD "")) bot) := by
  intro ua
  rcases ua with _ | u
  · decide
  · show isAIBot (some (lowerStr u)) none =
      AI_BOTS.any (fun bot => strContains (lowerStr u) bot)
    by_cases hu : lowerStr u = ""
    · have hd : u.data = [] := by
        have h2 := congrArg String.data hu
        simpa [lowerStr, lowerAscii] using h2
      have hu2 : u = "" := by
        cases u
        simp_all
      rw [hu2]
      decide
    · rw [isAIBot_some, if_neg hu]
      rw [show excludesOf none = [] from rfl]
      simp only [List.any_nil]
      rw [if_neg (show ¬(false = true) by simp)]
      rw [show includesOf none = [] from rfl, List.append_nil]
      have hll : lowerStr (lowerStr u) = lowerStr u := by
        unfold lowerStr
        show String.mk (lowerAscii (String.mk (lowerAscii u.data)).data) =
          String.mk (lowerAscii u.data)
        rw [show (String.mk (lowerAscii u.data)).data = lowerAscii u.data from rfl,
          lowerAscii_idem]
      rw [hll]
      have hlb : ∀ bot ∈ AI_BOTS, lowerStr bot = bot := by decide
      exact list_any_congr (fun bot hb => by rw [hlb bot hb])

set_option maxRecDepth 100000

/-- Witness for C8 at a concrete input: a URL with uppercase host, unsorted
and tracking parameters and a fragment canonicalizes, and canonicalizing
the output is the identity. -/
theorem canonicalize_idem_witness :
    canonicalize "https://Example.com/a?b=2&a=1&utm_source=x#f" =
      some "https://example.com/a?a=1&b=2" ∧
    canonicalize "https://example.com/a?a=1&b=2" = some "https://example.com/a?a=1&b=2" :=
  ⟨by decide,
   @canonicalize_idem "https://Example.com/a?b=2&a=1&utm_source=x#f"
     "https://example.com/a?a=1&b=2" (by decide)⟩

/-- Claim C9 counterexample: the two URL strings differ only in the order
of their query parameters (two parameters that share the name `a`), yet
their fingerprints differ — `URLSearchParams.sort()` is stable, so the two
orders survive canonicalization. -/
theorem c9_duplicate_name_counterexample :
    fingerprint "https://example.com/?a=1&a=2" ≠
      fingerprint "https://example.com/?a=2&a=1" := by decide

/-- Witness for the amended C9 at concrete inputs: uppercase host, a
fragment, a tracking parameter and swapped (distinct-name) parameter order
on one side; same fingerprint on both sides. -/
theorem fingerprint_equiv_witness :
    fingerprint "https://Example.com/p?b=2&a=1&utm_source=x#frag" =
      fingerprint "https://example.com/p?a=1&b=2" :=
  @fingerprint_equiv "https://Example.com/p?b=2&a=1&utm_source=x#frag"
    "https://example.com/p?a=1&b=2"
    { scheme := "https".data, host := "Example.com".data, path := "/p".data,
      params := [("b".data, "2".data), ("a".data, "1".data),
        ("utm_source".data, "x".data)],
      frag := some "frag".data }
    { scheme := "https".data, host := "example.com".data, path := "/p".data,
      params := [("a".data, "1".data), ("b".data, "2".data)], frag := none }
    (by decide) (by decide) (by decide) (by decide) (by decide) (by decide) (by decide)

/-- Claim C4: the extraction gateway never throws and collapses every
failure mode to the absent result.  Conjuncts: the timeout abort, a
transport error, a non-2xx backend response, an unparseable body, a
`success: false` body, a body without `data`, a missing or empty markdown
field, and a markdown payload that is structurally HTML all yield `none`
(one indistinguishable value, whatever the parallel raw-HTML fetch did);
and every `some` result carries non-empty, non-HTML markdown. -/
theorem c4_scrapeWithTimeout_total_failure_collapse :
    (∀ raw, scrapeWithTimeout .aborted raw = none) ∧
    (∀ raw j, scrapeWithTimeout (.response false j) raw = none) ∧
    (∀ raw, scrapeWithTimeout .transportError raw = none) ∧
    (∀ raw, scrapeWithTimeout (.response true none) raw = none) ∧
    (∀ raw d, scrapeWithTimeout (.response true (some ⟨false, d⟩)) raw = none) ∧
    (∀ raw, scrapeWithTimeout (.response true (some ⟨true, none⟩)) raw = none) ∧
    (∀ raw, scrapeWithTimeout (.response true (some ⟨true, some ⟨none⟩⟩)) raw = none) ∧
    (∀ raw, scrapeWithTimeout (.response true (some ⟨true, some ⟨some ""⟩⟩)) raw = none) ∧
    (∀ raw md, isHTML md = true →
      scrapeWithTimeout (.response true (some ⟨true, some ⟨some md⟩⟩)) raw = none) ∧
    (∀ fc raw r, scrapeWithTimeout fc raw = some r →
      r.markdown ≠ "" ∧ isHTML r.markdown = false) := by
  refine ⟨fun raw => rfl, fun raw j => rfl, fun raw => rfl, fun raw => rfl,
    fun raw d => rfl, fun raw => rfl, fun raw => rfl, fun raw => rfl, ?_, ?_⟩
  · intro raw md hh
    unfold scrapeWithTimeout
    simp [hh]
  · intro fc raw r h
    rcases fc with _ | _ | ⟨ok, json⟩
    · exact absurd h (by simp [scrapeWithTimeout])
    · exact absurd h (by simp [scrapeWithTimeout])
    · rcases ok with _ | _
      · exact absurd h (by simp [scrapeWithTimeout])
      · rcases json with _ | j
        · exact absurd h (by simp [scrapeWithTimeout])
        · rcases j with ⟨su, da⟩
          rcases su with _ | _
          · exact absurd h (by simp [scrapeWithTimeout])
          · rcases da with _ | d
            · exact absurd h (by simp [scrapeWithTimeout])
            · rcases d with ⟨mdo⟩
              rcases mdo with _ | md
              · exact absurd h (by simp [scrapeWithTimeout])
              · have hred : scrapeWithTimeout
                    (.response true (some ⟨true, some ⟨some md⟩⟩)) raw =
                    (if md = "" then none
                     else if isHTML md then none
                     else some ⟨md, rawHtmlOf raw⟩) := rfl
                rw [hred] at h
                by_cases h1 : md = ""
                · rw [if_pos h1] at h
                  exact absurd h (by simp)
                · rw [if_neg h1] at h
                  by_cases h2 : isHTML md = true
                  · rw [if_pos h2] at h
                    exact absurd h (by simp)
                  · rw [if_neg h2] at h
                    simp only [Option.some.injEq] at h
                    rw [← h]
                    exact ⟨h1, Bool.eq_false_iff.mpr h2⟩

/-- Witness for C4 at concrete inputs: a timeout collapses to `none`; an
HTML-shaped markdown payload collapses to `none` even when everything else
succeeded; and a genuine markdown payload comes back whole, non-empty and
non-HTML. -/
theorem c4_scrapeWithTimeout_witness :
    scrapeWithTimeout .aborted none = none ∧
    isHTML "<html><body>hi</body></html>" = true ∧
    scrapeWithTimeout
      (.response true (some ⟨true, some ⟨some "<html><body>hi</body></html>"⟩⟩))
      (some (true, some "<html>raw</html>")) = none ∧
    scrapeWithTimeout (.response true (some ⟨true, some ⟨some "# hello"⟩⟩)) none =
      some ⟨"# hello", none⟩ ∧
    ("# hello" ≠ "" ∧ isHTML "# hello" = false) :=
  ⟨c4_scrapeWithTimeout_total_failure_collapse.1 none,
   by decide,
   c4_scrapeWithTimeout_total_failure_collapse.2.2.2.2.2.2.2.2.1
     (some (true, some "<html>raw</html>")) "<html><body>hi</body></html>" (by decide),
   by decide,
   c4_scrapeWithTimeout_total_failure_collapse.2.2.2.2.2.2.2.2.2
     (.response true (some ⟨true, some ⟨some "# hello"⟩⟩)) none ⟨"# hello", none⟩
     (by decide)⟩

/-- Claim C7: dual credential lookup on `/render`.  The hashed-credential
key `apikeyhash:sha256(token)` is consulted first (a hit there decides,
whatever the legacy store holds); only on a `null` there is the legacy key
`apikey:token` consulted; absent from both stores the request is rejected
as an invalid credential with HTTP 401; present only in the legacy store it
resolves to the same tenant record shape. -/
theorem c7_dual_credential_lookup :
    (∀ (tok : String) (store : String → KVOutcome (Option CustomerConfig))
      (c : CustomerConfig),
      store ("apikeyhash:" ++ sha256 tok) = .ok (some c) →
      authLookup tok store = .resolved c) ∧
    (∀ (tok : String) (store : String → KVOutcome (Option CustomerConfig))
      (c : CustomerConfig),
      store ("apikeyhash:" ++ sha256 tok) = .ok none →
      store ("apikey:" ++ tok) = .ok (some c) →
      authLookup tok store = .resolved c) ∧
    (∀ (tok : String) (store : String → KVOutcome (Option CustomerConfig)),
      store ("apikeyhash:" ++ sha256 tok) = .ok none →
      store ("apikey:" ++ tok) = .ok none →
      authLookup tok store = .invalid) ∧
    (∀ (o : RenderOracle) (tok : String),
      o.token = some tok →
      o.authStore ("apikeyhash:" ++ sha256 tok) = .ok none →
      o.authStore ("apikey:" ++ tok) = .ok none →
      (_handleRenderLogic o).response = jsonResponse "Invalid API token" 401) := by
  refine ⟨?_, ?_, ?_, ?_⟩
  · intro tok store c h
    unfold authLookup
    rw [h]
  · intro tok store c h1 h2
    unfold authLookup
    rw [h1, h2]
  · intro tok store h1 h2
    unfold authLookup
    rw [h1, h2]
  · intro o tok htok h1 h2
    have hauth : authLookup tok o.authStore = .invalid := by
      unfold authLookup
      rw [h1, h2]
    unfold _handleRenderLogic
    rw [htok]
    dsimp only
    rw [hauth]

/-- Witness for C7 at concrete inputs: a credential present only in the
legacy store resolves to its tenant record; one absent from both stores is
invalid and the request logic answers the 401 invalid-token JSON error. -/
theorem c7_dual_credential_lookup_witness :
    authLookup "tok1"
      (fun k => if k = "apikey:tok1"
        then KVOutcome.ok (some { id := some "cust_1", domains := some ["example.com"] })
        else KVOutcome.ok none) =
      AuthOutcome.resolved { id := some "cust_1", domains := some ["example.com"] } ∧
    authLookup "tok1" (fun _ => KVOutcome.ok none) = AuthOutcome.invalid ∧
    (_handleRenderLogic
      { token := some "tok1", authStore := fun _ => KVOutcome.ok none,
        urlParam := none, cacheRead := KVOutcome.ok none,
        pendingRead := KVOutcome.ok none, pollRead := fun _ => KVOutcome.ok none,
        scrape := none, fallbackOrigin := none }).response =
      jsonResponse "Invalid API token" 401 :=
  ⟨c7_dual_credential_lookup.2.1 "tok1"
      (fun k => if k = "apikey:tok1"
        then KVOutcome.ok (some { id := some "cust_1", domains := some ["example.com"] })
        else KVOutcome.ok none)
      { id := some "cust_1", domains := some ["example.com"] }
      (by decide) (by decide),
   c7_dual_credential_lookup.2.2.1 "tok1" (fun _ => KVOutcome.ok none) rfl rfl,
   c7_dual_credential_lookup.2.2.2
      { token := some "tok1", authStore := fun _ => KVOutcome.ok none,
        urlParam := none, cacheRead := KVOutcome.ok none,
        pendingRead := KVOutcome.ok none, pollRead := fun _ => KVOutcome.ok none,
        scrape := none, fallbackOrigin := none }
      "tok1" rfl rfl rfl⟩

/-- Claim C6: the domain allowlist on `/render`.  First conjunct: with a
resolvable credential (whichever store resolved it, and whatever tenant it
names), a parsed https target URL whose lowercased, `www.`-stripped
hostname is not a literal member of the tenant's allowlist is rejected with
the 403 domain-not-allowlisted JSON error.  Second conjunct: for every
parseable URL, the canonical URL that is fetched and cached keeps the whole
original host — including any `www.` prefix — changed only by lowercasing. -/
theorem c6_domain_allowlist_and_host_preserved :
    (∀ (o : RenderOracle) (tok : String) (c : CustomerConfig) (s : String) (u : URLModel),
      o.token = some tok →
      authLookup tok o.authStore = AuthOutcome.resolved c →
      customerIdOf c ≠ none →
      o.urlParam = some s →
      parseURL s.data = some u →
      u.scheme = "https".data →
      domainAllowed c (String.mk (stripWWW (lowerAscii u.host))) = false →
      (_handleRenderLogic o).response =
        jsonResponse ("Domain \x27" ++ String.mk (stripWWW (lowerAscii u.host)) ++
          "\x27 not in allowlist") 403) ∧
    (∀ (s : String) (u : URLModel), parseURL s.data = some u →
      ∃ cu, canonicalize s = some (String.mk (serializeURL cu)) ∧
        parseURL (String.mk (serializeURL cu)).data = some cu ∧
        cu.host = lowerAscii u.host) := by
  constructor
  · intro o tok c s u htok hauth hcid hurl hparse hscheme hdom
    rcases hid : customerIdOf c with _ | cid
    · exact absurd hid hcid
    · unfold _handleRenderLogic
      simp only [htok, hauth, hid, hurl, hparse]
      rw [if_neg (fun hne2 => hne2 hscheme)]
      rw [hdom]
      rfl
  · intro s u hparse
    refine ⟨canonURL u, ?_, ?_, rfl⟩
    · unfold canonicalize
      rw [hparse]
      rfl
    · exact serializeURL_parse (canonURL_wf (parseURL_wf hparse)) rfl

/-- Witness for C6 at concrete inputs: `https://notallowed.example/` against
an allowlist of `example.com` draws the 403, with a valid credential; and
`https://www.Example.com/a` canonicalizes with its `www.` intact. -/
theorem c6_domain_allowlist_witness :
    (_handleRenderLogic
      { token := some "tok1",
        authStore := fun _ => KVOutcome.ok
          (some { id := some "cust_1", domains := some ["example.com"] }),
        urlParam := some "https://notallowed.example/",
        cacheRead := KVOutcome.ok none, pendingRead := KVOutcome.ok none,
        pollRead := fun _ => KVOutcome.ok none, scrape := none,
        fallbackOrigin := none }).response =
      jsonResponse "Domain \x27notallowed.example\x27 not in allowlist" 403 ∧
    (∃ cu, canonicalize "https://www.Example.com/a" =
        some (String.mk (serializeURL cu)) ∧
      parseURL (String.mk (serializeURL cu)).data = some cu ∧
      cu.host = lowerAscii "www.Example.com".data) := by
  constructor
  · have h := c6_domain_allowlist_and_host_preserved.1
      { token := some "tok1",
        authStore := fun _ => KVOutcome.ok
          (some { id := some "cust_1", domains := some ["example.com"] }),
        urlParam := some "https://notallowed.example/",
        cacheRead := KVOutcome.ok none, pendingRead := KVOutcome.ok none,
        pollRead := fun _ => KVOutcome.ok none, scrape := none,
        fallbackOrigin := none }
      "tok1" { id := some "cust_1", domains := some ["example.com"] }
      "https://notallowed.example/"
      { scheme := "https".data, host := "notallowed.example".data, path := "/".data,
        params := [], frag := none }
      rfl rfl (by decide) rfl (by decide) (by decide) (by decide)
    exact h.trans (by decide)
  · have h := c6_domain_allowlist_and_host_preserved.2 "https://www.Example.com/a"
      { scheme := "https".data, host := "www.Example.com".data, path := "/a".data,
        params := [], frag := none }
      (by decide)
    exact h


/-- Claim C3 counterexample: in proxy mode, a request that found a pending
lease and exhausted all six polls does NOT fall back to original content —
it invokes the extraction backend itself (trace flag `scrapeInvoked`) and
serves the freshly extracted markdown (`MISS (Rendered)`), at an explicit
concrete input. -/
theorem c3_proxy_waiter_scrapes_counterexample :
    (handleProxyBotPath
      { cacheRead := KVOutcome.ok none, pendingRead := KVOutcome.ok (some "1728"),
        pollRead := fun _ => KVOutcome.ok none, scrape := some ⟨"# md", none⟩,
        originFetch := none }).map
      (fun r => (r.scrapeInvoked, r.pollsUsed,
        getHeader r.response.headers "X-Rosetta-Status")) =
      Except.ok (true, 6, some "MISS (Rendered)") := rfl

/-- Claim C3 (amended): the bounded wait.  On both crawler-serving paths a
request that finds a pending lease polls the cache at most `POLL_COUNT = 6`
times at `POLL_SLEEP_MS = 500` ms intervals (3 s total); a non-HTML,
non-empty value appearing during polling is returned as a hit.  When the
budget is exhausted, API mode falls back to original content WITHOUT
invoking the extraction backend, while proxy mode proceeds to invoke the
extraction backend itself and only falls back if that extraction fails. -/
theorem c3_bounded_wait :
    (POLL_COUNT * POLL_SLEEP_MS = 3000) ∧
    (∀ (reads : Nat → KVOutcome (Option String)) (md : String) (used : Nat),
      pollFrom reads 0 POLL_COUNT = some (md, used) → used ≤ POLL_COUNT) ∧
    (∀ (o : RenderOracle) (p : String), o.pendingRead = KVOutcome.ok (some p) → p ≠ "" →
      pollFrom o.pollRead 0 POLL_COUNT = none →
      renderAfterCache o = { response := fetchFallback o.fallbackOrigin,
                             scrapeInvoked := false, pollsUsed := POLL_COUNT }) ∧
    (∀ (o : RenderOracle) (p md : String) (used : Nat),
      o.pendingRead = KVOutcome.ok (some p) → p ≠ "" →
      pollFrom o.pollRead 0 POLL_COUNT = some (md, used) →
      renderAfterCache o = { response := mdResponseAPI md "hit",
                             scrapeInvoked := false, pollsUsed := used }) ∧
    (∀ (o : ProxyOracle) (p md : String) (used : Nat),
      o.pendingRead = KVOutcome.ok (some p) → p ≠ "" →
      pollFrom o.pollRead 0 POLL_COUNT = some (md, used) →
      proxyAfterCache o = Except.ok { response := { status := 200,
                                                    headers := mdHeadersProxyHit,
                                                    body := RespBody.text md },
                                      scrapeInvoked := false, pollsUsed := used }) ∧
    (∀ (o : ProxyOracle) (p : String), o.pendingRead = KVOutcome.ok (some p) → p ≠ "" →
      pollFrom o.pollRead 0 POLL_COUNT = none →
      proxyAfterCache o = proxyScrapePhase o POLL_COUNT ∧
      (∀ r, proxyScrapePhase o POLL_COUNT = Except.ok r → r.scrapeInvoked = true)) := by
  refine ⟨rfl, ?_, ?_, ?_, ?_, ?_⟩
  · intro reads md used h
    simpa using pollFrom_le reads POLL_COUNT 0 md used h
  · intro o p hp hne hpoll
    unfold renderAfterCache
    rw [show cachedValue o.pendingRead = some p from by rw [hp]; rfl]
    dsimp only
    rw [if_pos (by simpa using hne), hpoll]
  · intro o p md used hp hne hpoll
    unfold renderAfterCache
    rw [show cachedValue o.pendingRead = some p from by rw [hp]; rfl]
    dsimp only
    rw [if_pos (by simpa using hne), hpoll]
  · intro o p md used hp hne hpoll
    unfold proxyAfterCache
    rw [show cachedValue o.pendingRead = some p from by rw [hp]; rfl]
    dsimp only
    rw [if_pos (by simpa using hne), hpoll]
  · intro o p hp hne hpoll
    refine ⟨?_, fun r h => proxyScrapePhase_invoked o POLL_COUNT r h⟩
    unfold proxyAfterCache
    rw [show cachedValue o.pendingRead = some p from by rw [hp]; rfl]
    dsimp only
    rw [if_pos (by simpa using hne), hpoll]

/-- Witness for `c3_bounded_wait` at concrete oracles: an API-mode waiter
whose six polls all miss falls back without extraction; an API-mode waiter
whose first poll hits serves the hit; a proxy-mode waiter whose six polls
all miss proceeds to its own extraction phase. -/
theorem c3_bounded_wait_witness :
    (renderAfterCache
      { token := none, authStore := fun _ => KVOutcome.err, urlParam := none,
        cacheRead := KVOutcome.ok none, pendingRead := KVOutcome.ok (some "1"),
        pollRead := fun _ => KVOutcome.ok none, scrape := none,
        fallbackOrigin := none } =
      { response := fetchFallback none, scrapeInvoked := false,
        pollsUsed := POLL_COUNT }) ∧
    (renderAfterCache
      { token := none, authStore := fun _ => KVOutcome.err, urlParam := none,
        cacheRead := KVOutcome.ok none, pendingRead := KVOutcome.ok (some "1"),
        pollRead := fun _ => KVOutcome.ok (some "# cached"), scrape := none,
        fallbackOrigin := none } =
      { response := mdResponseAPI "# cached" "hit", scrapeInvoked := false,
        pollsUsed := 1 }) ∧
    (proxyAfterCache
      { cacheRead := KVOutcome.ok none, pendingRead := KVOutcome.ok (some "1"),
        pollRead := fun _ => KVOutcome.ok none, scrape := some ⟨"# md", none⟩,
        originFetch := none } =
      proxyScrapePhase
        { cacheRead := KVOutcome.ok none, pendingRead := KVOutcome.ok (some "1"),
          pollRead := fun _ => KVOutcome.ok none, scrape := some ⟨"# md", none⟩,
          originFetch := none } POLL_COUNT) := by
  refine ⟨?_, ?_, ?_⟩
  · exact c3_bounded_wait.2.2.1 _ "1" rfl (by decide) (by decide)
  · exact c3_bounded_wait.2.2.2.1 _ "1" "# cached" 1 rfl (by decide) (by decide)
  · exact (c3_bounded_wait.2.2.2.2.2 _ "1" rfl (by decide) (by decide)).1

/-- Claim C1: the API-mode fallback (`fetchFallback`) does return status 200
under every origin outcome, and every proxy-mode response that is actually
produced has status 200 — but the claim fails as stated: the proxy-mode
fallback awaits `proxyToOrigin` with no try/catch around its `fetch`, so
when extraction has failed and the origin fetch rejects, the bot path
terminates in a propagated exception (`Except.error ()`) and no 200
response with indicator headers reaches the crawler, exhibited at a
concrete input (cache miss, no pending lease, extraction failure, origin
fetch rejects). -/
theorem c1_bot_status_not_always_200 :
    (∀ fo, (fetchFallback fo).status = 200) ∧
    (∀ (o : ProxyOracle) (r : ProxyResult),
      handleProxyBotPath o = Except.ok r → r.response.status = 200) ∧
    (handleProxyBotPath
      { cacheRead := KVOutcome.ok none, pendingRead := KVOutcome.ok none,
        pollRead := fun _ => KVOutcome.ok none, scrape := none,
        originFetch := none } = Except.error ()) := by
  refine ⟨?_, ?_, rfl⟩
  · intro fo
    match fo with
    | some (st, html) => rfl
    | none => rfl
  · intro o r h
    unfold handleProxyBotPath proxyAfterCache proxyScrapePhase proxyFallbackPhase at h
    dsimp only at h
    repeat' split at h
    all_goals
      first
      | (injection h with h; rw [← h])
      | exact absurd h (by simp)

/-- Witness for `c1_bot_status_not_always_200`: the proxy-mode cache-hit
response at a concrete oracle has status 200. -/
theorem c1_bot_status_not_always_200_witness :
    ({ response := { status := 200, headers := mdHeadersProxyHit,
                     body := RespBody.text "# md" },
       scrapeInvoked := false, pollsUsed := 0 } : ProxyResult).response.status = 200 :=
  c1_bot_status_not_always_200.2.1
    { cacheRead := KVOutcome.ok (some "# md"), pendingRead := KVOutcome.ok none,
      pollRead := fun _ => KVOutcome.ok none, scrape := none, originFetch := none }
    { response := { status := 200, headers := mdHeadersProxyHit,
                    body := RespBody.text "# md" },
      scrapeInvoked := false, pollsUsed := 0 }
    rfl

/-- Claim C2 counterexample: the pending-lease read (line 693) and the
lease write (line 725) are separate awaits, so two cache-miss threads for
the same fingerprint that interleave between the two steps BOTH invoke the
extraction backend: under the schedule 0,1,0,1,0,1,0,1 from two fresh
threads, the extraction counter reaches 2. -/
theorem c2_concurrent_double_scrape_counterexample :
    (runSched (fun _ => some "# md")
      { pending := false, cache := none, scrapes := 0,
        threads := [TState.start, TState.start] }
      [0, 1, 0, 1, 0, 1, 0, 1]).scrapes = 2 := rfl

/-- Claim C2 (amended): what the single-flight machinery does guarantee.
Backend invocations are exactly accounted: over any schedule, the increase
of the extraction counter equals the number of threads that moved past
their own extraction call (so "exactly one invocation" holds only when
exactly one thread acquires the lease, which thread interleaving need not
ensure); and any thread that observed another holder's lease stays in the
wait-loop family forever — it polls, hits, or falls back to origin, and
never invokes the extraction backend itself. -/
theorem c2_single_flight_amended :
    (∀ (f : Nat → Option String) (L : List Nat) (s : Sys),
      (runSched f s L).scrapes + countScraped s.threads =
        s.scrapes + countScraped (runSched f s L).threads) ∧
    (∀ (f : Nat → Option String) (L : List Nat) (s : Sys) (i : Nat) (t : TState),
      s.threads[i]? = some t → isWaiter t = true →
      ∃ t2, (runSched f s L).threads[i]? = some t2 ∧ isWaiter t2 = true ∧
        isPostScrape t2 = false) := by
  constructor
  · exact fun f L s => runSched_scrapes f L s
  · intro f L s i t hg hw
    obtain ⟨t2, h1, h2⟩ := runSched_waiter f L s i t hg hw
    exact ⟨t2, h1, h2, waiter_not_postScrape h2⟩

/-- Witness for `c2_single_flight_amended` at concrete inputs: the
accounting identity over a concrete three-step schedule, and the
wait-family confinement of a concrete waiting thread. -/
theorem c2_single_flight_amended_witness :
    ((runSched (fun _ => some "# md")
        { pending := true, cache := none, scrapes := 0,
          threads := [TState.checkPending] } [0, 0, 0]).scrapes +
      countScraped [TState.checkPending] =
      0 + countScraped (runSched (fun _ => some "# md")
        { pending := true, cache := none, scrapes := 0,
          threads := [TState.checkPending] } [0, 0, 0]).threads) ∧
    (∃ t2, (runSched (fun _ => some "# md")
        { pending := true, cache := none, scrapes := 0,
          threads := [TState.waiting 2] } [0, 0, 0]).threads[0]? = some t2 ∧
      isWaiter t2 = true ∧ isPostScrape t2 = false) := by
  constructor
  · exact c2_single_flight_amended.1 (fun _ => some "# md")
      [0, 0, 0]
      { pending := true, cache := none, scrapes := 0,
        threads := [TState.checkPending] }
  · exact c2_single_flight_amended.2 (fun _ => some "# md")
      [0, 0, 0]
      { pending := true, cache := none, scrapes := 0,
        threads := [TState.waiting 2] }
      0 (TState.waiting 2) rfl rfl
